import Mathlib

/-!
Verification of the `css` selector package (tokenizer, parser, compiler and
matcher) against a shallow embedding of its Go source.

Strings are modelled byte-exactly as `List Nat` (each entry one byte of the Go
string), and code points (Go `rune`) as `Nat`.  The embedding follows the Go
source files `lex.go` (the revision whose tokens carry `raw`/`s`/`flag`/`dim`),
`parse.go`, and `css.go`.  Go's partial operations (string slicing and index
out of range) are modelled in an `Except` monad with an explicit constructor
for runtime panics, and loops carry explicit fuel; running out of fuel is a
distinguished error, so a run that returns `.ok` corresponds exactly to a
terminating, non-panicking Go execution.
-/

/-- Byte strings: the bytes of a Go `string`, in order. -/
abbrev GoStr := List Nat

/-- Code points (Go `rune`).  The lexer's `eof` sentinel is the rune 0. -/
abbrev Rune := Nat

/-- Is `b` a UTF-8 continuation byte (`0x80..0xBF`)? -/
def isCont (b : Nat) : Bool := 0x80 ≤ b && b ≤ 0xBF

/-- Payload of a continuation byte. -/
def contVal (b : Nat) : Nat := b - 0x80

/-- The replacement character `U+FFFD`, returned by Go's UTF-8 decoder for
invalid input (`utf8.RuneError`). -/
def runeError : Rune := 0xFFFD

/-- Model of Go `utf8.DecodeRuneInString`: returns the first rune of the byte
string and the number of bytes consumed.  On empty input it returns
`(RuneError, 0)`; on invalid input `(RuneError, 1)`. -/
def decodeRune : GoStr → Nat × Nat
  | [] => (runeError, 0)
  | b0 :: rest =>
    if b0 < 0x80 then (b0, 1)
    else
      -- two-byte sequences: leading byte 0xC2..0xDF
      if 0xC2 ≤ b0 && b0 ≤ 0xDF then
        match rest with
        | b1 :: _ =>
          if isCont b1 then ((b0 - 0xC0) * 0x40 + contVal b1, 2) else (runeError, 1)
        | [] => (runeError, 1)
      -- three-byte sequences: leading byte 0xE0..0xEF with restricted b1
      else if 0xE0 ≤ b0 && b0 ≤ 0xEF then
        match rest with
        | b1 :: b2 :: _ =>
          let b1ok :=
            if b0 = 0xE0 then 0xA0 ≤ b1 && b1 ≤ 0xBF
            else if b0 = 0xED then 0x80 ≤ b1 && b1 ≤ 0x9F
            else isCont b1
          if b1ok && isCont b2 then
            ((b0 - 0xE0) * 0x1000 + contVal b1 * 0x40 + contVal b2, 3)
          else (runeError, 1)
        | [b1] =>
          let b1ok :=
            if b0 = 0xE0 then 0xA0 ≤ b1 && b1 ≤ 0xBF
            else if b0 = 0xED then 0x80 ≤ b1 && b1 ≤ 0x9F
            else isCont b1
          if b1ok then (runeError, 1) else (runeError, 1)
        | [] => (runeError, 1)
      -- four-byte sequences: leading byte 0xF0..0xF4 with restricted b1
      else if 0xF0 ≤ b0 && b0 ≤ 0xF4 then
        match rest with
        | b1 :: b2 :: b3 :: _ =>
          let b1ok :=
            if b0 = 0xF0 then 0x90 ≤ b1 && b1 ≤ 0xBF
            else if b0 = 0xF4 then 0x80 ≤ b1 && b1 ≤ 0x8F
            else isCont b1
          if b1ok && isCont b2 && isCont b3 then
            ((b0 - 0xF0) * 0x40000 + contVal b1 * 0x1000 + contVal b2 * 0x40 + contVal b3, 4)
          else (runeError, 1)
        | _ => (runeError, 1)
      else (runeError, 1)

/-- Model of Go `utf8.RuneLen`: byte length of the UTF-8 encoding of `r`, or
`-1` if `r` is a surrogate or exceeds `U+10FFFF`. -/
def runeLen (r : Rune) : Int :=
  if r < 0x80 then 1
  else if r < 0x800 then 2
  else if 0xD800 ≤ r && r ≤ 0xDFFF then -1
  else if r < 0x10000 then 3
  else if r ≤ 0x10FFFF then 4
  else -1

/-- Model of UTF-8 encoding as performed by Go's `strings.Builder.WriteRune`:
invalid runes (surrogates, out of range) are encoded as `U+FFFD`. -/
def encodeRune (r : Rune) : GoStr :=
  if r < 0x80 then [r]
  else if r < 0x800 then [0xC0 + r / 0x40, 0x80 + r % 0x40]
  else if 0xD800 ≤ r && r ≤ 0xDFFF then [0xEF, 0xBF, 0xBD]
  else if r < 0x10000 then [0xE0 + r / 0x1000, 0x80 + (r / 0x40) % 0x40, 0x80 + r % 0x40]
  else if r ≤ 0x10FFFF then
    [0xF0 + r / 0x40000, 0x80 + (r / 0x1000) % 0x40, 0x80 + (r / 0x40) % 0x40, 0x80 + r % 0x40]
  else [0xEF, 0xBF, 0xBD]

/-- UTF-8 byte string of a Lean string literal (used to spell out the byte
strings appearing in the Go source; all of them are ASCII). -/
def enc (s : String) : GoStr := s.data.flatMap (fun c => encodeRune c.toNat)

/-- UTF-8 validity of a byte string: decoding never produces the
`(RuneError, 1)` result that Go's decoder reserves for invalid input.  On a
nonempty string the decoder consumes `n ≥ 1` bytes, so dropping `n - 1` bytes
of the tail continues exactly after the decoded rune. -/
def validUtf8 : GoStr → Bool
  | [] => true
  | b :: rest =>
    let (r, n) := decodeRune (b :: rest)
    if r = runeError && n = 1 then false
    else validUtf8 (rest.drop (n - 1))
  termination_by bs => bs.length
  decreasing_by
    have h : (rest.drop (n - 1)).length ≤ rest.length := by
      rw [List.length_drop]; omega
    simp only [List.length_cons]
    omega

/-- Only a NUL byte decodes to the rune 0: single-byte decodes return the
byte itself, multi-byte decodes are at least `U+0080`, and invalid input
decodes to `U+FFFD`. -/
theorem decodeRune_fst_zero : ∀ {b : Nat} {rest : GoStr},
    (decodeRune (b :: rest)).1 = 0 → b = 0 := by
  intro b rest h
  simp only [decodeRune, contVal, isCont, runeError] at h
  repeat' split at h
  all_goals try dsimp only at h
  all_goals try simp only [Bool.and_eq_true, decide_eq_true_eq] at *
  all_goals omega

/-! ### Character classes (from `lex.go`) -/

/-- Go `isWhitespace`: newline, tab or space. -/
def isWhitespace (r : Rune) : Bool := r == 10 || r == 9 || r == 32

/-- Go `isDigit`. -/
def isDigit (r : Rune) : Bool := 48 ≤ r && r ≤ 57

/-- Go `isHex`. -/
def isHex (r : Rune) : Bool :=
  isDigit r || (65 ≤ r && r ≤ 70) || (97 ≤ r && r ≤ 102)

/-- Go `isLetter`. -/
def isLetter (r : Rune) : Bool := (65 ≤ r && r ≤ 90) || (97 ≤ r && r ≤ 122)

/-- Go `isNonASCII` (note: strictly greater than `0x80`). -/
def isNonASCII (r : Rune) : Bool := 0x80 < r

/-- Go `isNameStart`. -/
def isNameStart (r : Rune) : Bool := isLetter r || isNonASCII r || r == 95

/-- Go `isName`. -/
def isName (r : Rune) : Bool := isNameStart r || isDigit r || r == 45

/-- Go `isNumStart`. -/
def isNumStart (r1 r2 r3 : Rune) : Bool :=
  if r1 == 43 || r1 == 45 then
    if isDigit r2 then true
    else if r2 == 46 && isDigit r3 then true
    else false
  else if r1 == 46 then isDigit r2
  else isDigit r1

/-- Go `isValidEscape` (the `eof` sentinel is the rune 0). -/
def isValidEscape (r1 r2 : Rune) : Bool :=
  if r1 != 92 then false
  else if r2 == 10 || r2 == 0 then false
  else true

/-- Go `isIdentStart`. -/
def isIdentStart (r1 r2 r3 : Rune) : Bool :=
  if r1 == 45 && (isNameStart r2 || isValidEscape r2 r3) then true
  else if isNameStart r1 then true
  else if r1 == 92 && isValidEscape r1 r2 then true
  else false

/-- Go `isNonPrintable`. -/
def isNonPrintable (r : Rune) : Bool :=
  (r ≤ 0x8) || r == 9 || (0xE ≤ r && r ≤ 0x1F) || r == 0x7F

/-! ### Tokens (from `lex.go`) -/

/-- The token types of the lexer (`tokenType` in `lex.go`). -/
inductive TokenType where
  | atKeyword | bracketClose | bracketOpen | cdc | cdo | colon | comma
  | curlyClose | curlyOpen | delim | dimension | eof | function | hash
  | ident | number | parenClose | parenOpen | percent | semicolon
  | stringTok | url | whitespace
deriving DecidableEq, Repr

/-- The "type flag" of a token (`tokenFlag` in `lex.go`). -/
inductive TokenFlag where
  | none | integer | id | number | unrestricted
deriving DecidableEq, Repr

/-- A lexer token (`token` in `lex.go`): `raw` is the consumed slice of the
input, `s` the decoded value, `pos` the byte offset of the token's start. -/
structure Token where
  typ : TokenType
  raw : GoStr
  s : GoStr
  pos : Int
  flag : TokenFlag
  dim : GoStr
deriving DecidableEq, Repr

/-- Go `token.withDim`. -/
def Token.withDim (t : Token) (d : GoStr) : Token := { t with dim := d }

/-- Go `token.withString`. -/
def Token.withString (t : Token) (s : GoStr) : Token := { t with s := s }

/-- Go `token.withFlag`. -/
def Token.withFlag (t : Token) (f : TokenFlag) : Token := { t with flag := f }

/-- Go `token.isDelim`. -/
def Token.isDelim (t : Token) (s : GoStr) : Bool :=
  t.typ == .delim && t.s == s

/-- Go `token.isIdent`. -/
def Token.isIdent (t : Token) (s : GoStr) : Bool :=
  t.typ == .ident && t.s == s

/-- Errors of the embedded pipeline.  `lexErr` carries the message and the
lexer's `last`/`pos` fields (`lexErr` in `lex.go`); `parseErr` carries the
message and offending token (`parseErr` in `parse.go`); `oob` models a Go
runtime panic (out-of-range slice or index); `noFuel` is exhaustion of the
model's explicit fuel and corresponds to no Go behaviour. -/
inductive Err where
  | lexErr (msg : GoStr) (last pos : Int)
  | parseErr (msg : GoStr) (t : Token)
  | oob
  | noFuel
deriving DecidableEq, Repr

/-! ### Lexer state and primitive cursor operations (from `lex.go`) -/

/-- The lexer (`lexer` in `lex.go`): input bytes plus the `last`/`pos`
cursors.  Both are `Int` because Go's `push` can drive `pos` negative. -/
structure LexState where
  s : GoStr
  last : Int
  pos : Int
deriving DecidableEq, Repr

/-- Go `newLexer`. -/
def newLexer (s : GoStr) : LexState := ⟨s, 0, 0⟩

/-- The bytes of the input from byte offset `pos` on, i.e. Go `l.s[l.pos:]`
(callers must have checked `0 ≤ pos`). -/
def LexState.suffix (l : LexState) : GoStr := l.s.drop l.pos.toNat

/-- Go `lexer.peek`: the next rune, or the rune 0 at end of input.  Accessing
`l.s[l.pos:]` with a negative `pos` is a runtime panic. -/
def LexState.peek (l : LexState) : Except Err Rune :=
  if (l.s.length : Int) ≤ l.pos then pure 0
  else if l.pos < 0 then throw .oob
  else pure (decodeRune l.suffix).1

/-- Go `lexer.pop`: consume and return the next rune (0 at end of input). -/
def LexState.pop (l : LexState) : Except Err (Rune × LexState) :=
  if (l.s.length : Int) ≤ l.pos then pure (0, l)
  else if l.pos < 0 then throw .oob
  else
    let (r, n) := decodeRune l.suffix
    pure (r, { l with pos := l.pos + n })

/-- Go `lexer.push`: "reconsume the current input code point" by stepping the
cursor back by the UTF-8 length of `r` (not by the width actually consumed —
the two differ when invalid UTF-8 decoded to `U+FFFD`). -/
def LexState.push (l : LexState) (r : Rune) : LexState :=
  { l with pos := l.pos - runeLen r }

/-- Go `lexer.peekN`: peek `n + 1` runes ahead, returning the last. -/
def LexState.peekN (l : LexState) (n : Nat) : Except Err Rune := do
  let rec go (pos : Int) (s : GoStr) : Nat → Except Err Rune
    | 0 =>
      if (s.length : Int) ≤ pos then pure 0
      else if pos < 0 then throw .oob
      else pure (decodeRune (s.drop pos.toNat)).1
    | k + 1 =>
      if (s.length : Int) ≤ pos then pure 0
      else if pos < 0 then throw .oob
      else
        let (_, w) := decodeRune (s.drop pos.toNat)
        go (pos + w) s k
  go l.pos l.s n

/-- Go `lexer.popN`: pop `n` runes, discarding them. -/
def LexState.popN (l : LexState) : Nat → Except Err LexState
  | 0 => pure l
  | n + 1 => do
    let (_, l) ← l.pop
    l.popN n

/-- Go `lexer.errorf`: a `lexErr` capturing the current `last` and `pos`. -/
def LexState.errf (l : LexState) (msg : GoStr) : Err := .lexErr msg l.last l.pos

/-- The Go slice `s[a:b]` of a byte string. -/
def extract (s : GoStr) (a b : Int) : GoStr := (s.drop a.toNat).take (b - a).toNat

/-- Go `lexer.token`: emit a token of type `typ` whose `raw` and `s` are the
slice `l.s[l.last:l.pos]`, and advance `last` to `pos`.  The Go slice
expression panics unless `0 ≤ last ≤ pos ≤ len(s)`. -/
def LexState.mkToken (l : LexState) (typ : TokenType) : Except Err (Token × LexState) :=
  if 0 ≤ l.last ∧ l.last ≤ l.pos ∧ l.pos ≤ (l.s.length : Int) then
    let raw := extract l.s l.last l.pos
    pure (⟨typ, raw, raw, l.last, .none, []⟩, { l with last := l.pos })
  else throw .oob

/-! ### The lexer's consuming functions (from `lex.go`)

Loops carry explicit fuel; each recursive call decrements it, and running out
is the distinguished error `Err.noFuel`, never a Go behaviour. -/

/-- Value of one hex digit byte. -/
def hexDigitVal (b : Nat) : Option Nat :=
  if isDigit b then some (b - 48)
  else if 65 ≤ b && b ≤ 70 then some (b - 55)
  else if 97 ≤ b && b ≤ 102 then some (b - 87)
  else none

/-- Model of Go `strconv.ParseUint(s, 16, 64)`: the value, or the error text
produced by `strconv` (`%v` of the returned error). -/
def parseHexUint (s : GoStr) : Except GoStr Nat :=
  let quoted := enc "strconv.ParseUint: parsing \"" ++ s ++ enc "\": "
  if s.isEmpty then throw (quoted ++ enc "invalid syntax")
  else
    match s.foldl (fun acc b =>
        match acc, hexDigitVal b with
        | some v, some d => if v * 16 + d < 2 ^ 64 then some (v * 16 + d) else none
        | _, _ => none) (some 0) with
    | some v => pure v
    | none =>
      if s.all (fun b => (hexDigitVal b).isSome) then
        throw (quoted ++ enc "value out of range")
      else throw (quoted ++ enc "invalid syntax")

/-- Go `%c` formatting of a rune: its UTF-8 bytes. -/
def fmtChar (r : Rune) : GoStr := encodeRune r

/-- The hex-collecting loop of Go `lexer.consumeEscape`.  Note that, as in the
source, the first popped hex digit is not part of `hexRune`. -/
def consumeEscapeLoop (l : LexState) (b hexRune : GoStr) (n : Nat) :
    Nat → Except Err (LexState × GoStr)
  | 0 => throw .noFuel
  | fuel + 1 => do
    let r ← l.peek
    if isHex r then do
      let (_, l) ← l.pop
      if n + 1 > 5 then throw (l.errf (enc "too many hex digits consuming escape sequence"))
      else consumeEscapeLoop l b (hexRune ++ encodeRune r) (n + 1) fuel
    else if isWhitespace r then do
      let (_, l) ← l.pop
      consumeEscapeLoop l b hexRune n fuel
    else
      match parseHexUint hexRune with
      | .error e =>
        throw (l.errf (enc "failed to parse hex escape sequence " ++ hexRune ++ enc ": " ++ e))
      | .ok val => pure (l, b ++ encodeRune val)

/-- Go `lexer.consumeEscape`: decode one escaped code point, appending it to
the builder `b`. -/
def consumeEscape (fuel : Nat) (l : LexState) (b : GoStr) : Except Err (LexState × GoStr) := do
  let (r, l) ← l.pop
  if r == 0 then throw (l.errf (enc "unexpected newline after escape sequence"))
  else if !isHex r then pure (l, b ++ encodeRune r)
  else consumeEscapeLoop l b [] 0 fuel

/-- Go `lexer.consumeName`: append name code points (and escapes) to `b`. -/
def consumeName (l : LexState) (b : GoStr) : Nat → Except Err (LexState × GoStr)
  | 0 => throw .noFuel
  | fuel + 1 => do
    let r ← l.peek
    if isName r then do
      let (r2, l) ← l.pop
      consumeName l (b ++ encodeRune r2) fuel
    else do
      let p1 ← l.peekN 1
      if isValidEscape r p1 then do
        let (_, l) ← l.pop
        let (l, b) ← consumeEscape fuel l b
        consumeName l b fuel
      else pure (l, b)

/-- The digit-consuming loops of Go `lexer.consumeNumber`. -/
def consumeDigits (l : LexState) (b : GoStr) : Nat → Except Err (LexState × GoStr)
  | 0 => throw .noFuel
  | fuel + 1 => do
    let r ← l.peek
    if isDigit r then do
      let (r2, l) ← l.pop
      consumeDigits l (b ++ encodeRune r2) fuel
    else pure (l, b)

/-- Step 2 of Go `lexer.consumeNumber`: an optional leading sign. -/
def consumeSign (l : LexState) (b : GoStr) : Except Err (LexState × GoStr) := do
  let p ← l.peek
  if p == 43 || p == 45 then do
    let (r, l) ← l.pop
    pure (l, b ++ encodeRune r)
  else pure (l, b)

/-- Step 4 of Go `lexer.consumeNumber`: an optional fraction (`.` followed by
a digit), which switches the flag to "number". -/
def consumeFrac (fuel : Nat) (l : LexState) (b : GoStr) (f : TokenFlag) :
    Except Err (LexState × GoStr × TokenFlag) := do
  let p ← l.peek
  let p1 ← l.peekN 1
  if p == 46 && isDigit p1 then do
    let (r1, l) ← l.pop
    let (r2, l) ← l.pop
    let (l, b) ← consumeDigits l (b ++ encodeRune r1 ++ encodeRune r2) fuel
    pure (l, b, TokenFlag.number)
  else pure (l, b, f)

/-- Step 5 of Go `lexer.consumeNumber`: an optional exponent.  As in the
source, seeing `E`/`e` switches the flag to "number" even when no digits
follow. -/
def consumeExp (fuel : Nat) (l : LexState) (b : GoStr) (f : TokenFlag) :
    Except Err (LexState × GoStr × TokenFlag) := do
  let r1 ← l.peek
  let r2 ← l.peekN 1
  let r3 ← l.peekN 2
  if r1 == 69 || r1 == 101 then
    let f := TokenFlag.number
    if isDigit r2 then do
      let (e1, l) ← l.pop
      let (e2, l) ← l.pop
      let (l, b) ← consumeDigits l (b ++ encodeRune e1 ++ encodeRune e2) fuel
      pure (l, b, f)
    else if (r2 == 43 || r2 == 45) && isDigit r3 then do
      let (e1, l) ← l.pop
      let (e2, l) ← l.pop
      let (e3, l) ← l.pop
      let (l, b) ← consumeDigits l (b ++ encodeRune e1 ++ encodeRune e2 ++ encodeRune e3) fuel
      pure (l, b, f)
    else pure (l, b, f)
  else pure (l, b, f)

/-- Go `lexer.consumeNumber`: consume a numeric representation into `b`,
returning the "integer" / "number" type flag (the steps of the source,
sequenced). -/
def consumeNumber (fuel : Nat) (l : LexState) (b : GoStr) :
    Except Err (LexState × GoStr × TokenFlag) := do
  let (l, b) ← consumeSign l b
  let (l, b) ← consumeDigits l b fuel
  let (l, b, f) ← consumeFrac fuel l b TokenFlag.integer
  consumeExp fuel l b f

/-- The decision tail of Go `lexer.startsURL` once the probed content
character `r` is known: reject a quote, otherwise pop the four runes of
`url(` into `b`. -/
def startsURLFin (l : LexState) (b : GoStr) (r : Rune) : Except Err (Bool × LexState × GoStr) :=
  if r == 39 || r == 34 then pure (false, l, b)
  else do
    let (c1, l) ← l.pop
    let (c2, l) ← l.pop
    let (c3, l) ← l.pop
    let (c4, l) ← l.pop
    pure (true, l,
      b ++ encodeRune c1 ++ encodeRune c2 ++ encodeRune c3 ++ encodeRune c4)

/-- The tail of Go `lexer.startsURL` after the whitespace-skipping loop fixed
`n`: probe the first content character (skipping one whitespace) and
finish. -/
def startsURLTail (l : LexState) (b : GoStr) (n : Nat) : Except Err (Bool × LexState × GoStr) := do
  let r1 ← l.peekN n
  let r2 ← l.peekN (n + 1)
  startsURLFin l b (if isWhitespace r1 then r2 else r1)

/-- Go `lexer.startsURL`: does `url(` (unquoted) follow?  On success the four
popped runes are appended to `b`. -/
def startsURL (l : LexState) (b : GoStr) : Except Err (Bool × LexState × GoStr) := do
  let p0 ← l.peek
  if !(p0 == 117 || p0 == 85) then pure (false, l, b)
  else do
    let p1 ← l.peekN 1
    if !(p1 == 114 || p1 == 82) then pure (false, l, b)
    else do
      let p2 ← l.peekN 2
      if !(p2 == 108 || p2 == 76) then pure (false, l, b)
      else do
        let p3 ← l.peekN 3
        if p3 != 40 then pure (false, l, b)
        else do
          -- consume up to two characters of whitespace (the bounded Go loop,
          -- unrolled into the choice of `n`)
          let w4 ← l.peekN 4
          if !isWhitespace w4 then startsURLTail l b 4
          else do
            let w5 ← l.peekN 5
            if !isWhitespace w5 then startsURLTail l b 5
            else startsURLTail l b 6

/-- The whitespace-consuming loops of Go `lexer.consumeURL` (they append the
popped whitespace to `b`). -/
def consumeURLws (l : LexState) (b : GoStr) : Nat → Except Err (LexState × GoStr)
  | 0 => throw .noFuel
  | fuel + 1 => do
    let r ← l.peek
    if isWhitespace r then do
      let (r2, l) ← l.pop
      consumeURLws l (b ++ encodeRune r2) fuel
    else pure (l, b)

/-- Go `lexer.consumeURL`. -/
def consumeURL (l : LexState) (b : GoStr) : Nat → Except Err (Token × LexState)
  | 0 => throw .noFuel
  | fuel + 1 => do
    let (l, b) ← consumeURLws l b fuel
    consumeURLloop l b fuel
where
  /-- The main loop of Go `lexer.consumeURL`. -/
  consumeURLloop (l : LexState) (b : GoStr) : Nat → Except Err (Token × LexState)
    | 0 => throw .noFuel
    | fuel + 1 => do
      let (r, l) ← l.pop
      if r == 41 then do
        let (t, l) ← l.mkToken .url
        pure (t.withString (b ++ encodeRune r), l)
      else if r == 0 then throw (l.errf (enc "unexpected eof parsing URL"))
      else if isWhitespace r then do
        let (l, b) ← consumeURLws l (b ++ encodeRune r) fuel
        let (r2, l) ← l.pop
        let b := b ++ encodeRune r2
        if r2 == 41 then do
          let (t, l) ← l.mkToken .url
          pure (t.withString b, l)
        else throw (l.errf (enc "unexpected character parsing URL: " ++ fmtChar r2))
      else if r == 39 || r == 34 || r == 40 || isNonPrintable r then
        throw (l.errf (enc "invalid character parsing URL: " ++ fmtChar r))
      else if r == 92 then do
        let p ← l.peek
        if !isValidEscape r p then
          throw (l.errf (enc "invalid \x27\\\x27 parsing URL"))
        else
          match consumeEscape fuel l b with
          | .error (.lexErr m la po) =>
            throw (.lexErr (enc "invalid escape parsing URL: " ++ m) la po)
          | .error e => throw e
          | .ok (l, b) => consumeURLloop l b fuel
      else consumeURLloop l (b ++ encodeRune r) fuel

/-- Go `lexer.string`: consume a string token's body after the opening
`quote`, decoding escapes into the builder `b`. -/
def lexString (quote : Rune) (l : LexState) (b : GoStr) : Nat → Except Err (Token × LexState)
  | 0 => throw .noFuel
  | fuel + 1 => do
    let (r, l) ← l.pop
    if r == quote then do
      let (t, l) ← l.mkToken .stringTok
      pure (t.withString b, l)
    else if r == 0 then throw (l.errf (enc "unexpected eof parsing string"))
    else if r == 10 then throw (l.errf (enc "unexpected newline parsing string"))
    else if r == 92 then do
      let p ← l.peek
      if p == 0 then lexString quote l b fuel
      else if p == 10 then
        throw (l.errf (enc "unexpected newline after \x27\\\x27 parsing string"))
      else
        match consumeEscape fuel l b with
        | .error (.lexErr m la po) => throw (.lexErr (enc "parsing string: " ++ m) la po)
        | .error e => throw e
        | .ok (l, b) => lexString quote l b fuel
    else lexString quote l (b ++ encodeRune r) fuel

/-- Go `lexer.numericToken`. -/
def numericToken (fuel : Nat) (l : LexState) : Except Err (Token × LexState) := do
  let (l, b, f) ← consumeNumber fuel l []
  let p0 ← l.peek
  let p1 ← l.peekN 1
  let p2 ← l.peekN 2
  if isIdentStart p0 p1 p2 then do
    let (l, d) ← consumeName l [] fuel
    let (t, l) ← l.mkToken .dimension
    pure (((t.withString b).withFlag f).withDim d, l)
  else if p0 == 37 then do
    let (r, l) ← l.pop
    let (t, l) ← l.mkToken .percent
    pure ((t.withString (b ++ encodeRune r)).withFlag .number, l)
  else do
    let (t, l) ← l.mkToken .number
    pure ((t.withString b).withFlag f, l)

/-- Go `lexer.identLikeToken`. -/
def identLikeToken (fuel : Nat) (l : LexState) : Except Err (Token × LexState) := do
  let (started, l, b) ← startsURL l []
  if started then consumeURL l b fuel
  else do
    let (l, b) ← consumeName l b fuel
    let p ← l.peek
    if p == 40 then do
      let (r, l) ← l.pop
      let (t, l) ← l.mkToken .function
      pure (t.withString (b ++ encodeRune r), l)
    else do
      let (t, l) ← l.mkToken .ident
      pure (t.withString b, l)

/-- The whitespace-skipping loop at the top of Go `lexer.next` (popped
whitespace is not recorded; the token's `raw` covers it). -/
def skipWsRunes (l : LexState) : Nat → Except Err LexState
  | 0 => throw .noFuel
  | fuel + 1 => do
    let r ← l.peek
    if isWhitespace r then do
      let (_, l) ← l.pop
      skipWsRunes l fuel
    else pure l

/-- The hash-token tail of the number-sign branch of Go `lexer.next`. -/
def lexHashTail (fuel : Nat) (l : LexState) (r : Rune) : Except Err (Token × LexState) := do
  let (l, b) ← consumeName l (encodeRune r) fuel
  let (t, l) ← l.mkToken .hash
  pure ((t.withString b).withFlag .id, l)

/-- Go `lexer.next`: consume one token. -/
def lexNext (fuel : Nat) (l : LexState) : Except Err (Token × LexState) := do
  let (r, l) ← l.pop
  if isWhitespace r then do
    let l ← skipWsRunes l fuel
    l.mkToken .whitespace
  else if isDigit r then
    numericToken fuel (l.push r)
  else if isNameStart r then
    identLikeToken fuel (l.push r)
  else if r == 34 || r == 39 then
    lexString r l [] fuel
  else if r == 0 then
    l.mkToken .eof
  else if r == 35 then do
    -- a number sign
    let p0 ← l.peek
    if isName p0 then lexHashTail fuel l r
    else do
      let p1 ← l.peekN 1
      if isValidEscape p0 p1 then lexHashTail fuel l r
      else l.mkToken .delim
  else if r == 40 then l.mkToken .parenOpen
  else if r == 41 then l.mkToken .parenClose
  else if r == 43 then do
    -- '+'
    let p0 ← l.peek
    let p1 ← l.peekN 1
    if isNumStart r p0 p1 then numericToken fuel (l.push r)
    else l.mkToken .delim
  else if r == 44 then l.mkToken .comma
  else if r == 45 then do
    -- '-'
    let p0 ← l.peek
    let p1 ← l.peekN 1
    if isNumStart r p0 p1 then numericToken fuel (l.push r)
    else if p0 == 45 && p1 == 62 then do
      let l ← l.popN 2
      l.mkToken .cdc
    else if isIdentStart r p0 p1 then identLikeToken fuel (l.push r)
    else l.mkToken .delim
  else if r == 46 then do
    -- '.'
    let p0 ← l.peek
    let p1 ← l.peekN 1
    if isNumStart r p0 p1 then numericToken fuel (l.push r)
    else l.mkToken .delim
  else if r == 58 then l.mkToken .colon
  else if r == 59 then l.mkToken .semicolon
  else if r == 60 then do
    -- '<'
    let p0 ← l.peek
    let p1 ← l.peekN 1
    let p2 ← l.peekN 2
    if p0 == 33 && p1 == 45 && p2 == 45 then do
      let l ← l.popN 3
      l.mkToken .cdo
    else l.mkToken .delim
  else if r == 64 then do
    -- '@'
    let p0 ← l.peek
    let p1 ← l.peekN 1
    let p2 ← l.peekN 2
    if isIdentStart p0 p1 p2 then do
      let (l, b) ← consumeName l (encodeRune r) fuel
      let (t, l) ← l.mkToken .atKeyword
      pure (t.withString b, l)
    else l.mkToken .delim
  else if r == 91 then l.mkToken .bracketOpen
  else if r == 92 then do
    -- a backslash
    let p0 ← l.peek
    if !isValidEscape r p0 then throw (l.errf (enc "invalid escape character"))
    else identLikeToken fuel (l.push r)
  else if r == 93 then l.mkToken .bracketClose
  else if r == 123 then l.mkToken .curlyOpen
  else if r == 125 then l.mkToken .curlyClose
  else l.mkToken .delim

/-- Run the lexer to completion: the token stream of the input, up to and
including the terminal EOF token (the loop structure used by the package's
own tests and by the parser). -/
def tokenizeAll (lexFuel : Nat) (l : LexState) : Nat → Except Err (List Token)
  | 0 => throw .noFuel
  | fuel + 1 => do
    let (t, l) ← lexNext lexFuel l
    if t.typ == .eof then pure [t]
    else do
      let ts ← tokenizeAll lexFuel l fuel
      pure (t :: ts)

/-- Concatenation of the raw text of a token stream. -/
def concatRaw (ts : List Token) : GoStr := ts.flatMap Token.raw

/-! ### Selector AST (from `parse.go`) -/

/-- Go `pseudoClassSelector` (AST node): either a plain `ident` or a
`function` with raw argument tokens. -/
structure PseudoClassSel where
  pos : Int
  ident : GoStr
  function : GoStr
  args : List Token
deriving Repr

/-- Go `wqName`.  The Go fields `hasPrefix`/`prefix` are rendered as
`hasPfx`/`pfx`. -/
structure WqName where
  hasPfx : Bool
  pfx : GoStr
  value : GoStr
deriving Repr

/-- Go `typeSelector` (AST node). -/
structure TypeSel where
  pos : Int
  hasPfx : Bool
  pfx : GoStr
  value : GoStr
deriving Repr

/-- Go `attributeSelector` (AST node). -/
structure AttrSel where
  pos : Int
  wq : WqName
  matcher : GoStr
  val : GoStr
  modifier : Bool
deriving Repr

/-- Go `subclassSelector` (AST node). -/
structure SubclassSel where
  pos : Int
  idSelector : GoStr
  classSelector : GoStr
  attributeSelector : Option AttrSel
  pseudoClassSelector : Option PseudoClassSel
deriving Repr

/-- Go `pseudoSelector` (a pseudo-element with its trailing pseudo-classes). -/
structure PseudoSel where
  element : PseudoClassSel
  classes : List PseudoClassSel
deriving Repr

/-- Go `compoundSelector` (AST node). -/
structure CompoundSel where
  pos : Int
  typeSelector : Option TypeSel
  subClasses : List SubclassSel
  pseudoSelectors : List PseudoSel
deriving Repr

/-- Go `complexSelector`: a chain of compound selectors; `combinator` is the
combinator between this node and `next`. -/
inductive ComplexSel where
  | mk (pos : Int) (sel : CompoundSel) (combinator : GoStr) (next : Option ComplexSel)
deriving Repr

def ComplexSel.pos : ComplexSel → Int | .mk p _ _ _ => p
def ComplexSel.sel : ComplexSel → CompoundSel | .mk _ s _ _ => s
def ComplexSel.combinator : ComplexSel → GoStr | .mk _ _ c _ => c
def ComplexSel.next : ComplexSel → Option ComplexSel | .mk _ _ _ n => n

/-- The combinators recorded along a complex selector's chain (each node's
`combinator` field, in order, excluding the empty field of the final node). -/
def ComplexSel.chainCombinators : ComplexSel → List GoStr
  | .mk _ _ c next =>
    match next with
    | none => []
    | some n => c :: n.chainCombinators

/-- Go `strings.TrimPrefix`. -/
def goTrimPfx (s pre : GoStr) : GoStr :=
  if pre.isPrefixOf s then s.drop pre.length else s

/-! ### Parser state (from `parse.go` and `queue.go`) -/

/-- The display string of a token type (Go `tokenType.String`), used in
parser error messages. -/
def typeName (t : TokenType) : GoStr :=
  match t with
  | .atKeyword => enc "<at-keyword-token>"
  | .bracketClose => enc "<]-token>"
  | .bracketOpen => enc "<[-token>"
  | .cdc => enc "<CDC-token>"
  | .cdo => enc "<CDO-token>"
  | .colon => enc "<colon-token>"
  | .comma => enc "<comma-token>"
  | .curlyClose => enc "<\x7d-token>"
  | .curlyOpen => enc "<\x7b-token>"
  | .delim => enc "<delim-token>"
  | .dimension => enc "<dimension-token>"
  | .eof => enc "<eof-token>"
  | .function => enc "<function-token>"
  | .hash => enc "<hash-token>"
  | .ident => enc "<ident-token>"
  | .number => enc "<number-token>"
  | .parenClose => enc "<)-token>"
  | .parenOpen => enc "<(-token>"
  | .percent => enc "<percentage-token>"
  | .semicolon => enc "<semicolon-token>"
  | .stringTok => enc "<string-token>"
  | .url => enc "<url-token>"
  | .whitespace => enc "<whitespace-token>"

/-- The parser's token source: either the lexer, or a fixed token slice (Go's
`tokens` type, used by `newParserFromTokens` for sub-parsers). -/
inductive TokSource where
  | lex (l : LexState)
  | toks (i : Nat) (t : List Token)

/-- One token from the source (Go `lexer.next` or `tokens.next`).  The token
slice yields its tokens in order and then a terminal EOF token positioned
after the last token's raw text. -/
def TokSource.next (lf : Nat) : TokSource → Except Err (Token × TokSource)
  | .lex l => do
    let (t, l) ← lexNext lf l
    pure (t, .lex l)
  | .toks i t =>
    if h : i < t.length then pure (t.get ⟨i, h⟩, .toks (i + 1) t)
    else
      let lastPos : Int :=
        match t.getLast? with
        | some lt => lt.pos + lt.raw.length
        | none => 0
      pure (⟨.eof, [], [], lastPos, .none, []⟩, .toks i t)

/-- The peek queue (`queue` in `queue.go`): a FIFO of capacity `cap`.  The
ring-buffer implementation is modelled by the queue's list of elements, front
first; the implementation's panics (push onto a full queue, get/pop past the
end) are the `oob` error. -/
structure PQueue where
  vals : List Token
  cap : Nat

/-- Go `queue.push`. -/
def PQueue.push (q : PQueue) (t : Token) : Except Err PQueue :=
  if q.vals.length == q.cap then throw .oob
  else pure ⟨q.vals ++ [t], q.cap⟩

/-- Go `queue.pop`. -/
def PQueue.pop (q : PQueue) : Except Err (Token × PQueue) :=
  match q.vals with
  | [] => throw .oob
  | t :: rest => pure (t, ⟨rest, q.cap⟩)

/-- Go `queue.get`. -/
def PQueue.get (q : PQueue) (n : Nat) : Except Err Token :=
  match q.vals.get? n with
  | some t => pure t
  | none => throw .oob

/-- The parser (`parser` in `parse.go`): a token source plus the peek queue.
Go's sticky `err` field is subsumed by the `Except` monad: every Go caller
checks and propagates errors immediately, so surfacing the error at the point
it occurs is observationally the same. -/
structure ParserSt where
  l : TokSource
  q : PQueue

/-- Go `newParser`. -/
def newParser (s : GoStr) : ParserSt := ⟨.lex (newLexer s), ⟨[], 2⟩⟩

/-- Go `newParserFromTokens`. -/
def newParserFromTokens (t : List Token) : ParserSt := ⟨.toks 0 t, ⟨[], 2⟩⟩

/-- The filling loop of Go `parser.peekN`: pull tokens until the queue holds
more than `n`. -/
def pFill (lf : Nat) (n : Nat) (p : ParserSt) : Nat → Except Err ParserSt
  | 0 => throw .noFuel
  | k + 1 =>
    if n < p.q.vals.length then pure p
    else do
      let (t, l) ← p.l.next lf
      let q ← p.q.push t
      pFill lf n ⟨l, q⟩ k

/-- Go `parser.peekN`. -/
def pPeekN (lf : Nat) (p : ParserSt) (n : Nat) : Except Err (Token × ParserSt) := do
  let p ← pFill lf n p (n + 2)
  let t ← p.q.get n
  pure (t, p)

/-- Go `parser.peek`. -/
def pPeek (lf : Nat) (p : ParserSt) : Except Err (Token × ParserSt) :=
  pPeekN lf p 0

/-- Go `parser.next`. -/
def pNext (lf : Nat) (p : ParserSt) : Except Err (Token × ParserSt) :=
  if p.q.vals.length > 0 then do
    let (t, q) ← p.q.pop
    pure (t, ⟨p.l, q⟩)
  else do
    let (t, l) ← p.l.next lf
    pure (t, ⟨l, p.q⟩)

/-- Go `parser.skipWhitespace` (returns whether any whitespace was seen). -/
def pSkipWs (lf : Nat) (seen : Bool) (p : ParserSt) : Nat → Except Err (Bool × ParserSt)
  | 0 => throw .noFuel
  | k + 1 => do
    let (t, p) ← pPeek lf p
    if t.typ == .whitespace then do
      let (_, p) ← pNext lf p
      pSkipWs lf true p k
    else pure (seen, p)

/-! ### Parser productions (from `parse.go`) -/

/-- Go `parser.any`: collect a balanced raw token sequence up to (not
including) a token of type `until` at nesting depth zero. -/
def pAny (lf : Nat) (until_ : TokenType) (acc : List Token) (wantClosing : List TokenType)
    (p : ParserSt) : Nat → Except Err (List Token × ParserSt)
  | 0 => throw .noFuel
  | k + 1 => do
    let stop ← do
      if wantClosing.isEmpty then do
        let (t, p') ← pPeek lf p
        pure (if t.typ == until_ then some (acc, p') else none)
      else pure none
    match stop with
    | some r => pure r
    | none => do
      let (t, p) ← pNext lf p
      if t.typ == .eof then
        throw (.parseErr (enc "unexpected eof attempting to match \x27" ++
          typeName until_ ++ enc "\x27") t)
      else if t.typ == .bracketOpen then
        pAny lf until_ (acc ++ [t]) (wantClosing ++ [.bracketClose]) p k
      else if t.typ == .curlyOpen then
        pAny lf until_ (acc ++ [t]) (wantClosing ++ [.curlyClose]) p k
      else if t.typ == .parenOpen then
        pAny lf until_ (acc ++ [t]) (wantClosing ++ [.parenClose]) p k
      else if t.typ == .bracketClose || t.typ == .curlyClose || t.typ == .parenClose then
        match wantClosing.getLast? with
        | some w =>
          if w == t.typ then pAny lf until_ (acc ++ [t]) (wantClosing.dropLast) p k
          else throw (.parseErr (enc "unmatched \x27" ++ t.s ++ enc "\x27") t)
        | none => throw (.parseErr (enc "unmatched \x27" ++ t.s ++ enc "\x27") t)
      else pAny lf until_ (acc ++ [t]) wantClosing p k

/-- Go `parser.pseudoClassSelector`. -/
def pPseudoClassSel (lf fuel : Nat) (p : ParserSt) : Except Err (PseudoClassSel × ParserSt) := do
  let (t, p) ← pNext lf p
  let pos := t.pos
  if t.typ != .colon then throw (.parseErr (enc "expected \x27:\x27") t)
  else do
    let (t, p) ← pNext lf p
    if t.typ == .ident then pure (⟨pos, t.s, [], []⟩, p)
    else if t.typ != .function then
      throw (.parseErr (enc "expected identifier or function") t)
    else do
      let (args, p) ← pAny lf .parenClose [] [] p fuel
      let (c, p) ← pNext lf p
      if c.typ != .parenClose then throw (.parseErr (enc "expected \x27)\x27") t)
      else pure (⟨pos, [], t.s, args⟩, p)

/-- Go `parser.parseName`: `<wq-name>` or `<type-selector>` (the latter allows
a final `*`). -/
def pParseName (lf : Nat) (allowStar : Bool) (p : ParserSt) : Except Err (WqName × ParserSt) := do
  let (t, p) ← pNext lf p
  if t.isDelim (enc "|") then do
    let (t2, p) ← pNext lf p
    if t2.typ != .ident then throw (.parseErr (enc "expected identifier") t2)
    else pure (⟨true, [], t2.s⟩, p)
  else if t.isDelim (enc "*") then do
    let (d, p) ← pPeek lf p
    if !d.isDelim (enc "|") then
      if allowStar then pure (⟨false, [], enc "*"⟩, p)
      else throw (.parseErr (enc "expected \x27|\x27") d)
    else do
      let (_, p) ← pNext lf p
      let (id2, p) ← pNext lf p
      if !(id2.typ == .ident || (allowStar && id2.isDelim (enc "*"))) then
        throw (.parseErr (enc "expected identifier") id2)
      else pure (⟨true, t.s, id2.s⟩, p)
  else if t.typ != .ident then throw (.parseErr (enc "expected identifier") t)
  else do
    let (d, p) ← pPeek lf p
    if !d.isDelim (enc "|") then pure (⟨false, [], t.s⟩, p)
    else do
      let (id2, p) ← pPeekN lf p 1
      if !(id2.typ == .ident || (allowStar && id2.isDelim (enc "*"))) then
        pure (⟨false, [], t.s⟩, p)
      else do
        let (_, p) ← pNext lf p
        let (_, p) ← pNext lf p
        pure (⟨true, t.s, id2.s⟩, p)

/-- Go `parser.wqName`. -/
def pWqName (lf : Nat) (p : ParserSt) : Except Err (WqName × ParserSt) :=
  pParseName lf false p

/-- Go `parser.attributeSelector`. -/
def pAttrSel (lf fuel : Nat) (p : ParserSt) : Except Err (AttrSel × ParserSt) := do
  let (t, p) ← pNext lf p
  if t.typ != .bracketOpen then throw (.parseErr (enc "expected \x27[\x27") t)
  else do
    let pos := t.pos
    let (_, p) ← pSkipWs lf false p fuel
    let (name, p) ← pWqName lf p
    let (_, p) ← pSkipWs lf false p fuel
    let (t, p) ← pNext lf p
    if t.typ == .bracketClose then
      pure (⟨pos, name, [], [], false⟩, p)
    else if t.typ != .delim then
      throw (.parseErr (enc "expected \x27~\x27, \x27|\x27, \x27^\x27, \x27$\x27, \x27*\x27 or \x27=\x27") t)
    else if !(t.s == enc "~" || t.s == enc "|" || t.s == enc "^" || t.s == enc "$" ||
        t.s == enc "*" || t.s == enc "=") then
      throw (.parseErr (enc "expected \x27~\x27, \x27|\x27, \x27^\x27, \x27$\x27, \x27*\x27 or \x27=\x27") t)
    else do
      let (matcher, p) ← do
        if t.s != enc "=" then do
          let (t2, p) ← pNext lf p
          if !t2.isDelim (enc "=") then throw (.parseErr (enc "expected \x27=\x27") t2)
          else pure (t.s ++ enc "=", p)
        else pure (enc "=", p)
      let (_, p) ← pSkipWs lf false p fuel
      let (strOrIdent, p) ← pNext lf p
      if !(strOrIdent.typ == .stringTok || strOrIdent.typ == .ident) then
        throw (.parseErr (enc "expected identifier or string") strOrIdent)
      else do
        let val := strOrIdent.s
        let (_, p) ← pSkipWs lf false p fuel
        let (t, p) ← pNext lf p
        let (t, modifier, p) ← do
          if t.s == enc "i" then do
            let (_, p) ← pSkipWs lf false p fuel
            let (t, p) ← pNext lf p
            pure (t, true, p)
          else pure (t, false, p)
        if t.typ != .bracketClose then throw (.parseErr (enc "expected \x27]\x27") t)
        else pure (⟨pos, name, matcher, val, modifier⟩, p)

/-- Go `parser.typeSelector`: returns `none` where the Go version returns
`ok = false`. -/
def pTypeSel (lf : Nat) (p : ParserSt) : Except Err (Option TypeSel × ParserSt) := do
  let (t, p) ← pPeek lf p
  if !(t.typ == .ident || t.isDelim (enc "*") || t.isDelim (enc "|")) then
    pure (none, p)
  else do
    let (name, p) ← pParseName lf true p
    pure (some ⟨t.pos, name.hasPfx, name.pfx, name.value⟩, p)

/-- Go `parser.subclassSelector`: returns `none` where Go returns
`ok = false`. -/
def pSubclassSel (lf fuel : Nat) (p : ParserSt) : Except Err (Option SubclassSel × ParserSt) := do
  let (t, p) ← pPeek lf p
  if t.typ == .hash then do
    let (_, p) ← pNext lf p
    pure (some ⟨t.pos, goTrimPfx t.s (enc "#"), [], none, none⟩, p)
  else if t.isDelim (enc ".") then do
    let (_, p) ← pNext lf p
    let (t2, p) ← pNext lf p
    if t2.typ != .ident then throw (.parseErr (enc "expected identifier") t2)
    else pure (some ⟨t.pos, [], goTrimPfx t2.s (enc "."), none, none⟩, p)
  else if t.typ == .bracketOpen then do
    let (a, p) ← pAttrSel lf fuel p
    pure (some ⟨t.pos, [], [], some a, none⟩, p)
  else if t.typ != .colon then pure (none, p)
  else do
    let (pt, p) ← pPeekN lf p 1
    if pt.typ == .colon then pure (none, p)
    else do
      let (pcs, p) ← pPseudoClassSel lf fuel p
      pure (some ⟨t.pos, [], [], none, some pcs⟩, p)

/-- The trailing pseudo-class loop of Go `parser.pseudoSelector`. -/
def pPseudoSelClasses (lf : Nat) (acc : List PseudoClassSel) (p : ParserSt) :
    Nat → Except Err (List PseudoClassSel × ParserSt)
  | 0 => throw .noFuel
  | k + 1 => do
    let (_, p) ← pSkipWs lf false p k
    let (t, p) ← pPeek lf p
    if t.typ != .colon then pure (acc, p)
    else do
      let (cs, p) ← pPseudoClassSel lf k p
      pPseudoSelClasses lf (acc ++ [cs]) p k

/-- Go `parser.pseudoSelector` (pseudo-element plus its pseudo-classes). -/
def pPseudoSel (lf fuel : Nat) (p : ParserSt) : Except Err (Option PseudoSel × ParserSt) := do
  let (t, p) ← pPeek lf p
  if t.typ != .colon then pure (none, p)
  else do
    let (t2, p) ← pPeekN lf p 1
    if t2.typ != .colon then pure (none, p)
    else do
      let (_, p) ← pNext lf p
      let (ele, p) ← pPseudoClassSel lf fuel p
      let (classes, p) ← pPseudoSelClasses lf [] p fuel
      pure (some ⟨ele, classes⟩, p)

/-- The subclass-selector loop of Go `parser.compoundSelector`. -/
def pSubclassLoop (lf fuel : Nat) (acc : List SubclassSel) (p : ParserSt) :
    Nat → Except Err (List SubclassSel × ParserSt)
  | 0 => throw .noFuel
  | k + 1 => do
    let (sc, p) ← pSubclassSel lf fuel p
    match sc with
    | none => pure (acc, p)
    | some sc => pSubclassLoop lf fuel (acc ++ [sc]) p k

/-- The pseudo-selector loop of Go `parser.compoundSelector`. -/
def pPseudoLoop (lf fuel : Nat) (acc : List PseudoSel) (p : ParserSt) :
    Nat → Except Err (List PseudoSel × ParserSt)
  | 0 => throw .noFuel
  | k + 1 => do
    let (ps, p) ← pPseudoSel lf fuel p
    match ps with
    | none => pure (acc, p)
    | some ps => pPseudoLoop lf fuel (acc ++ [ps]) p k

/-- Go `parser.compoundSelector`: returns `none` where Go returns
`ok = false`. -/
def pCompoundSel (lf fuel : Nat) (p : ParserSt) : Except Err (Option CompoundSel × ParserSt) := do
  let (t, p) ← pPeek lf p
  let (ts, p) ← pTypeSel lf p
  let (subs, p) ← pSubclassLoop lf fuel [] p fuel
  let (pseudos, p) ← pPseudoLoop lf fuel [] p fuel
  let found := ts.isSome || !subs.isEmpty || !pseudos.isEmpty
  if !found then pure (none, p)
  else pure (some ⟨t.pos, ts, subs, pseudos⟩, p)

/-- The chain-extending loop of Go `parser.complexSelector`: each iteration
optionally consumes one combinator and then one compound selector.  The
result, a list of (combinator, compound selector) pairs, corresponds to the
`last.combinator` / `last.next` assignments of the Go loop. -/
def pComplexLoop (lf fuel : Nat) (acc : List (GoStr × CompoundSel)) (p : ParserSt) :
    Nat → Except Err (List (GoStr × CompoundSel) × ParserSt)
  | 0 => throw .noFuel
  | k + 1 => do
    let (_, p) ← pSkipWs lf false p fuel
    let (t, p) ← pPeek lf p
    let (comb, t, p) ← do
      if t.typ == .delim then
        if t.s == enc ">" || t.s == enc "+" || t.s == enc "~" then do
          let (_, p) ← pNext lf p
          let (_, p) ← pSkipWs lf false p fuel
          let (t2, p) ← pPeek lf p
          pure (t.s, t2, p)
        else if t.s == enc "|" then do
          let (t2, p) ← pPeekN lf p 1
          if t2.isDelim (enc "|") then do
            let (_, p) ← pNext lf p
            let (_, p) ← pNext lf p
            let (_, p) ← pSkipWs lf false p fuel
            let (t3, p) ← pPeek lf p
            pure (enc "||", t3, p)
          else pure (([] : GoStr), t, p)
        else pure (([] : GoStr), t, p)
      else pure (([] : GoStr), t, p)
    let (s, p) ← pCompoundSel lf fuel p
    match s with
    | none =>
      if comb != [] then
        throw (.parseErr (enc "expected identifier, \x27#\x27, \x27*\x27, \x27.\x27, \x27|\x27, \x27[\x27, \x27:\x27") t)
      else pure (acc, p)
    | some s => pComplexLoop lf fuel (acc ++ [(comb, s)]) p k

/-- Assemble the head compound selector and the loop's (combinator, compound)
pairs into the linked `ComplexSel` the Go loop builds in place. -/
def assembleChain (pos : Int) (hc : CompoundSel) : List (GoStr × CompoundSel) → ComplexSel
  | [] => .mk pos hc [] none
  | (comb, s) :: rest => .mk pos hc comb (some (assembleChain s.pos s rest))

/-- Go `parser.complexSelector`. -/
def pComplexSel (lf fuel : Nat) (p : ParserSt) : Except Err (ComplexSel × ParserSt) := do
  let (t, p) ← pPeek lf p
  let (cs, p) ← pCompoundSel lf fuel p
  match cs with
  | none =>
    throw (.parseErr (enc "expected identifier, \x27#\x27, \x27*\x27, \x27.\x27, \x27|\x27, \x27[\x27, \x27:\x27") t)
  | some cs => do
    let (pairs, p) ← pComplexLoop lf fuel [] p fuel
    pure (assembleChain t.pos cs pairs, p)

/-- The selector-list loop of Go `parser.parse`. -/
def pParseLoop (lf fuel : Nat) (acc : List ComplexSel) (p : ParserSt) :
    Nat → Except Err (List ComplexSel × ParserSt)
  | 0 => throw .noFuel
  | k + 1 => do
    let (cs, p) ← pComplexSel lf fuel p
    let acc := acc ++ [cs]
    let (_, p) ← pSkipWs lf false p fuel
    let (t, p) ← pNext lf p
    if t.typ == .eof then pure (acc, p)
    else if t.typ != .comma then throw (.parseErr (enc "expected \x27,\x27 or EOF") t)
    else do
      let (_, p) ← pSkipWs lf false p fuel
      pParseLoop lf fuel acc p k

/-- Go `parser.parse`. -/
def pParse (lf fuel : Nat) (p : ParserSt) : Except Err (List ComplexSel × ParserSt) := do
  let (_, p) ← pSkipWs lf false p fuel
  pParseLoop lf fuel [] p fuel

/-- Go `parser.expectWhitespaceOrEOF`. -/
def pExpectWsOrEOF (lf fuel : Nat) (p : ParserSt) : Except Err ParserSt := do
  let (_, p) ← pSkipWs lf false p fuel
  let (t, p) ← pNext lf p
  if t.typ != .eof then throw (.parseErr (enc "expected no more tokens") t)
  else pure p

/-! ### The An+B micro-parser (from `parse.go`) -/

/-- Computed An+B coefficients (Go `nth` in `css.go`); both fields are Go
`int64` values. -/
structure Nth where
  a : Int
  b : Int
deriving DecidableEq, Repr

/-- Model of Go `strconv.ParseInt(s, 10, 64)`: value, or the `strconv` error
text.  The value is range-checked against int64. -/
def parseGoInt (s : GoStr) : Except GoStr Int :=
  let quoted := enc "strconv.ParseInt: parsing \"" ++ s ++ enc "\": "
  let (sign, digits) :=
    match s with
    | 43 :: rest => ((1 : Int), rest)
    | 45 :: rest => ((-1 : Int), rest)
    | _ => ((1 : Int), s)
  if digits.isEmpty || !digits.all (fun b => isDigit b) then
    throw (quoted ++ enc "invalid syntax")
  else
    let v : Int := sign * (digits.foldl (fun acc b => acc * 10 + (b - 48)) 0 : Nat)
    if v < -(2 ^ 63) || 2 ^ 63 - 1 < v then throw (quoted ++ enc "value out of range")
    else pure v

/-- Go `isNDimension`. -/
def isNDimension (t : Token) : Bool :=
  t.typ == .dimension && t.flag == .integer && t.dim == enc "n"

/-- Go `isNDashDimension`. -/
def isNDashDimension (t : Token) : Bool :=
  t.typ == .dimension && t.dim == enc "n-"

/-- Go `isPrefixWithDigits` (rendered `isPfxWithDigits`). -/
def isPfxWithDigits (s pre : GoStr) : Bool :=
  pre.isPrefixOf s && s.length != pre.length && (s.drop pre.length).all (fun b => isDigit b)

/-- Go `isNDashDigitDimension`. -/
def isNDashDigitDimension (t : Token) : Bool :=
  t.typ == .dimension && isPfxWithDigits t.dim (enc "n-")

/-- Go `isNDashDigitIdent`. -/
def isNDashDigitIdent (t : Token) : Bool :=
  t.typ == .ident && isPfxWithDigits t.s (enc "n-")

/-- Go `isDashNDashDigitIdent`. -/
def isDashNDashDigitIdent (t : Token) : Bool :=
  t.typ == .ident && isPfxWithDigits t.s (enc "-n-")

/-- Go `isInteger`. -/
def isIntegerTok (t : Token) : Bool :=
  t.typ == .number && t.flag == .integer

/-- Go `isSignedInteger`. -/
def isSignedInteger (t : Token) : Bool :=
  isIntegerTok t && ((enc "+").isPrefixOf t.s || (enc "-").isPrefixOf t.s)

/-- Go `isSignlessInteger` (`strings.IndexFunc(t.s, isDigit) == 0`). -/
def isSignlessInteger (t : Token) : Bool :=
  isIntegerTok t &&
    (match t.s with
     | b :: _ => isDigit b
     | [] => false)

/-- Go `parser.b`: `<signed-integer> | ['+' | '-'] <signless-integer>`. -/
def pB (lf fuel : Nat) (p : ParserSt) : Except Err (Int × ParserSt) := do
  let (_, p) ← pSkipWs lf false p fuel
  let (t, p) ← pNext lf p
  if t.typ == .eof then pure (0, p)
  else if isSignedInteger t then
    match parseGoInt t.s with
    | .error e => throw (.parseErr (enc "parsing value as integer: " ++ e) t)
    | .ok n => pure (n, p)
  else if !(t.isDelim (enc "+") || t.isDelim (enc "-")) then
    throw (.parseErr (enc "expected one of the following: <signed-intger>, \x27+\x27, \x27-\x27") t)
  else do
    let isNeg := t.isDelim (enc "-")
    let (_, p) ← pSkipWs lf false p fuel
    let (t, p) ← pNext lf p
    if !isSignlessInteger t then throw (.parseErr (enc "expected <signless-integer>") t)
    else
      match parseGoInt t.s with
      | .error e => throw (.parseErr (enc "parsing value as integer: " ++ e) t)
      | .ok n => pure (if isNeg then 0 - n else n, p)

/-- Go `parser.aNPlusB`. -/
def pANPlusB (lf fuel : Nat) (p : ParserSt) : Except Err (Nth × ParserSt) := do
  let (_, p) ← pSkipWs lf false p fuel
  let (t, p) ← pNext lf p
  if t.isIdent (enc "even") then pure (⟨2, 0⟩, p)
  else if t.isIdent (enc "odd") then pure (⟨2, 1⟩, p)
  else if isIntegerTok t then
    match parseGoInt t.s with
    | .error e => throw (.parseErr (enc "parsing value as integer: " ++ e) t)
    | .ok b => pure (⟨0, b⟩, p)
  else if isNDimension t then
    match parseGoInt t.s with
    | .error e => throw (.parseErr (enc "parsing value as integer: " ++ e) t)
    | .ok a => do
      let (b, p) ← pB lf fuel p
      pure (⟨a, b⟩, p)
  else if isNDashDigitDimension t then
    -- token of the form "4n-3": "4" is the string and "n-3" the dimension
    match parseGoInt t.s with
    | .error e => throw (.parseErr (enc "parsing value as integer: " ++ e) t)
    | .ok a =>
      match parseGoInt (goTrimPfx t.dim (enc "n")) with
      | .error e => throw (.parseErr (enc "parsing dimension as integer: " ++ e) t)
      | .ok b => pure (⟨a, b⟩, p)
  else if isDashNDashDigitIdent t then
    -- token of the form "-n-3"
    match parseGoInt (goTrimPfx t.s (enc "-n")) with
    | .error e => throw (.parseErr (enc "parsing b as integer: " ++ e) t)
    | .ok b => pure (⟨-1, b⟩, p)
  else if isNDashDimension t then
    -- string of the form "4n- 3"
    match parseGoInt t.s with
    | .error e => throw (.parseErr (enc "parsing value as integer: " ++ e) t)
    | .ok a => do
      let (_, p) ← pSkipWs lf false p fuel
      let (t, p) ← pNext lf p
      if !isSignlessInteger t then throw (.parseErr (enc "expected unsigned integer") t)
      else
        match parseGoInt t.s with
        | .error e => throw (.parseErr (enc "parsing value as integer: " ++ e) t)
        | .ok n => pure (⟨a, 0 - n⟩, p)
  else if t.isIdent (enc "-n-") then
    -- string of the form "-n- 3"
    do
      let (_, p) ← pSkipWs lf false p fuel
      let (t, p) ← pNext lf p
      if !isSignlessInteger t then throw (.parseErr (enc "expected unsigned integer") t)
      else
        match parseGoInt t.s with
        | .error e => throw (.parseErr (enc "parsing value as integer: " ++ e) t)
        | .ok n => pure (⟨-1, 0 - n⟩, p)
  else if t.isIdent (enc "-n") then do
    let (b, p) ← pB lf fuel p
    pure (⟨-1, b⟩, p)
  else do
    let (t, p) ← do
      if t.isDelim (enc "+") then do
        let (_, p) ← pSkipWs lf false p fuel
        let (tok, p) ← pNext lf p
        pure (tok, p)
      else pure (t, p)
    if t.isIdent (enc "n") then do
      let (b, p) ← pB lf fuel p
      pure (⟨1, b⟩, p)
    else if t.isIdent (enc "n-") then do
      let (_, p) ← pSkipWs lf false p fuel
      let (t, p) ← pNext lf p
      if !isSignlessInteger t then throw (.parseErr (enc "expected unsigned integer") t)
      else
        match parseGoInt t.s with
        | .error e => throw (.parseErr (enc "parsing value as integer: " ++ e) t)
        | .ok n => pure (⟨1, 0 - n⟩, p)
    else throw (.parseErr (enc "expected \x27even\x27, \x27odd\x27, or integer type") t)

/-! ### Document tree model (the `golang.org/x/net/html` node shape used by
`css.go`)

`css.go` consumes `html.Node` values through the fields `Type`, `DataAtom`,
`Namespace`, `Attr`, and the links `Parent`, `FirstChild`, `NextSibling`,
`PrevSibling`.  The tree is modelled as an inductive value, and a node
together with its surrounding pointer context (preceding siblings, following
siblings, and whether a parent exists) as a `Loc` — the zipper equivalent of a
`*html.Node` into a fixed tree. -/

/-- Go `html.NodeType`. -/
inductive NodeType where
  | errorNode | textNode | documentNode | elementNode | commentNode | doctypeNode | rawNode
deriving DecidableEq, Repr

/-- Go `html.Attribute` (`Namespace` is rendered as `ns`). -/
structure Attrib where
  ns : GoStr
  key : GoStr
  val : GoStr
deriving DecidableEq, Repr

/-- Go `html.Node`, restricted to the fields `css.go` reads.  `dataAtom`
models the `atom.Atom` value (an opaque integer compared only for
equality). -/
inductive Node where
  | mk (ntype : NodeType) (dataAtom : Nat) (ns : GoStr) (attrs : List Attrib) (children : List Node)

def Node.ntype : Node → NodeType | .mk t _ _ _ _ => t
def Node.dataAtom : Node → Nat | .mk _ d _ _ _ => d
def Node.ns : Node → GoStr | .mk _ _ n _ _ => n
def Node.attrs : Node → List Attrib | .mk _ _ _ a _ => a
def Node.children : Node → List Node | .mk _ _ _ _ c => c

theorem Node.sizeOf_children (n : Node) : sizeOf n.children < sizeOf n := by
  cases n with
  | mk t d ns a c => simp [Node.children]

/-- A node in context: the node itself, its preceding siblings (nearest
first), its following siblings (nearest first), and whether it has a parent.
This is the information reachable from a `*html.Node` through `PrevSibling`,
`NextSibling` and `Parent`. -/
structure Loc where
  prev : List Node
  node : Node
  next : List Node
  hasParent : Bool

/-- Locations of the members of the sibling list `cs` (in order), given the
already-passed elder siblings `pr` (nearest first). -/
def childLocsAux (pr : List Node) : List Node → List Loc
  | [] => []
  | c :: rest => ⟨pr, c, rest, true⟩ :: childLocsAux (c :: pr) rest

/-- Locations of the children of `l.node` (all of them, any node type). -/
def Loc.childLocs (l : Loc) : List Loc := childLocsAux [] l.node.children

/-- Locations of the preceding siblings of `l`, nearest first (the order of a
Go `for s := n.PrevSibling; s != nil; s = s.PrevSibling` walk). -/
def prevLocsAux (nx : List Node) (hp : Bool) : List Node → List Loc
  | [] => []
  | s :: ss => ⟨ss, s, nx, hp⟩ :: prevLocsAux (s :: nx) hp ss

def Loc.prevLocs (l : Loc) : List Loc := prevLocsAux (l.node :: l.next) l.hasParent l.prev

/-- Locations of the following siblings of `l`, nearest first (the order of a
Go `for s := n.NextSibling; s != nil; s = s.NextSibling` walk). -/
def nextLocsAux (pr : List Node) (hp : Bool) : List Node → List Loc
  | [] => []
  | s :: ss => ⟨pr, s, ss, hp⟩ :: nextLocsAux (s :: pr) hp ss

def Loc.nextLocs (l : Loc) : List Loc := nextLocsAux (l.node :: l.prev) l.hasParent l.next

/-! ### Go int64 arithmetic -/

/-- Two's-complement wrap-around into the int64 range. -/
def wrap64 (x : Int) : Int := Int.emod (x + 2 ^ 63) (2 ^ 64) - 2 ^ 63

/-- Go int64 subtraction (wraps on overflow). -/
def goSub64 (x y : Int) : Int := wrap64 (x - y)

/-- Go int64 addition (wraps on overflow). -/
def goAdd64 (x y : Int) : Int := wrap64 (x + y)

/-- Go int64 quotient: truncated division, wrapping on the single overflow
case `MinInt64 / -1`. -/
def goDiv64 (x y : Int) : Int := wrap64 (Int.tdiv x y)

/-- Go int64 remainder: truncated remainder (`MinInt64 % -1` is 0, as in
Go). -/
def goMod64 (x y : Int) : Int := Int.tmod x y

/-! ### Pseudo-class matchers (from `css.go`) -/

/-- Go `emptyMatcher`. -/
def emptyMatcher (l : Loc) : Bool :=
  !(l.node.children.any (fun c => c.ntype == .elementNode))

/-- Go `firstChildMatcher`. -/
def firstChildMatcher (l : Loc) : Bool :=
  !(l.prev.any (fun s => s.ntype == .elementNode))

/-- Go `firstOfTypeMatcher`. -/
def firstOfTypeMatcher (l : Loc) : Bool :=
  !(l.prev.any (fun s => s.ntype == .elementNode && s.dataAtom == l.node.dataAtom))

/-- Go `lastChildMatcher`. -/
def lastChildMatcher (l : Loc) : Bool :=
  !(l.next.any (fun s => s.ntype == .elementNode))

/-- Go `lastOfTypeMatcher`. -/
def lastOfTypeMatcher (l : Loc) : Bool :=
  !(l.next.any (fun s => s.ntype == .elementNode && s.dataAtom == l.node.dataAtom))

/-- Go `onlyChildMatcher`. -/
def onlyChildMatcher (l : Loc) : Bool := firstChildMatcher l && lastChildMatcher l

/-- Go `onlyOfTypeMatcher`. -/
def onlyOfTypeMatcher (l : Loc) : Bool := firstOfTypeMatcher l && lastOfTypeMatcher l

/-- Go `rootMatcher` (`n.Parent == nil`). -/
def rootMatcher (l : Loc) : Bool := !l.hasParent

/-- Go `nth.matches`: is there a non-negative `n` with `An+B = val`?  All
arithmetic is Go int64 arithmetic. -/
def nthMatches (nth : Nth) (val : Int) : Bool :=
  if nth.a == 0 then val == nth.b
  else goMod64 (goSub64 val nth.b) nth.a == 0 && decide (0 ≤ goDiv64 (goSub64 val nth.b) nth.a)

/-- The position computed by the compiled `:nth-child` matcher: `i` starts at
1 and is incremented (as an int64) once per preceding element sibling. -/
def nthChildPos (l : Loc) : Int :=
  l.prev.foldl (fun i s => if s.ntype == .elementNode then goAdd64 i 1 else i) 1

/-- The position computed by the compiled `:nth-of-type` matcher. -/
def nthOfTypePos (l : Loc) : Int :=
  l.prev.foldl
    (fun i s => if s.ntype == .elementNode && s.dataAtom == l.node.dataAtom then goAdd64 i 1 else i) 1

/-- The position computed by the compiled `:nth-last-child` matcher. -/
def nthLastChildPos (l : Loc) : Int :=
  l.next.foldl (fun i s => if s.ntype == .elementNode then goAdd64 i 1 else i) 1

/-- The position computed by the compiled `:nth-last-of-type` matcher. -/
def nthLastOfTypePos (l : Loc) : Int :=
  l.next.foldl
    (fun i s => if s.ntype == .elementNode && l.node.dataAtom == s.dataAtom then goAdd64 i 1 else i) 1

/-- The matcher closure built by Go `compiler.nthChild`. -/
def nthChildMatcher (nth : Nth) (l : Loc) : Bool := nthMatches nth (nthChildPos l)

/-- The matcher closure built by Go `compiler.nthOfType`. -/
def nthOfTypeMatcher (nth : Nth) (l : Loc) : Bool := nthMatches nth (nthOfTypePos l)

/-- The matcher closure built by Go `compiler.nthLastChild`. -/
def nthLastChildMatcher (nth : Nth) (l : Loc) : Bool := nthMatches nth (nthLastChildPos l)

/-- The matcher closure built by Go `compiler.nthLastOfType`. -/
def nthLastOfTypeMatcher (nth : Nth) (l : Loc) : Bool := nthMatches nth (nthLastOfTypePos l)

/-! ### Selector matchers (from `css.go`) -/

/-- Go `namespaceMatcher` (the Go field `namespace` is rendered `ns`). -/
structure NamespaceMatcher where
  noNamespace : Bool
  ns : GoStr
deriving DecidableEq, Repr

/-- Go `newNamespaceMatcher`. -/
def newNamespaceMatcher (hasPfx : Bool) (pfx : GoStr) : NamespaceMatcher :=
  if !hasPfx then ⟨false, []⟩
  else if pfx == [] then ⟨true, []⟩
  else if pfx == enc "*" then ⟨false, []⟩
  else ⟨false, pfx⟩

/-- Go `namespaceMatcher.match`. -/
def NamespaceMatcher.nsMatch (n : NamespaceMatcher) (ns : GoStr) : Bool :=
  if n.noNamespace then ns == []
  else if n.ns == [] then true
  else n.ns == ns

/-- Go `typeSelectorMatcher`. -/
structure TypeSelectorMatcher where
  allAtoms : Bool
  atom : Nat
  ns : NamespaceMatcher
deriving DecidableEq, Repr

/-- Go `typeSelectorMatcher.match`. -/
def TypeSelectorMatcher.tsMatch (t : TypeSelectorMatcher) (n : Node) : Bool :=
  if !(t.allAtoms || t.atom == n.dataAtom) then false
  else t.ns.nsMatch n.ns

/-- Go `unicode.IsSpace`: the White_Space code points. -/
def goIsSpace (r : Rune) : Bool :=
  (9 ≤ r && r ≤ 13) || r == 32 || r == 0x85 || r == 0xA0 || r == 0x1680 ||
  (0x2000 ≤ r && r ≤ 0x200A) || r == 0x2028 || r == 0x2029 || r == 0x202F ||
  r == 0x205F || r == 0x3000

/-- Model of Go `strings.Fields`: maximal runs of bytes whose decoded runes
are not white space (rune boundaries respected, raw bytes preserved). -/
def goFieldsAux (cur : GoStr) : GoStr → List GoStr
  | [] => if cur.isEmpty then [] else [cur]
  | b :: rest =>
    let (r, n) := decodeRune (b :: rest)
    if goIsSpace r then
      (if cur.isEmpty then [] else [cur]) ++ goFieldsAux [] (rest.drop (n - 1))
    else goFieldsAux (cur ++ (b :: rest).take n) (rest.drop (n - 1))
  termination_by s => s.length
  decreasing_by
    all_goals
      have h : (rest.drop (n - 1)).length = rest.length - (n - 1) := List.length_drop _ _
      simp only [List.length_cons]
      omega

def goFields (s : GoStr) : List GoStr := goFieldsAux [] s

/-- Go `attributeSelectorMatcher`: a namespace matcher plus the key/value
predicate built by `compiler.attributeSelector`. -/
structure AttributeSelectorMatcher where
  ns : NamespaceMatcher
  fn : GoStr → GoStr → Bool

/-- Go `attributeSelectorMatcher.match`. -/
def AttributeSelectorMatcher.asMatch (a : AttributeSelectorMatcher) (n : Node) : Bool :=
  n.attrs.any (fun attr => a.ns.nsMatch attr.ns && a.fn attr.key attr.val)

/-- Go `subclassSelectorMatcher`. -/
structure SubclassSelectorMatcher where
  idSelector : GoStr
  classSelector : GoStr
  attributeSelector : Option AttributeSelectorMatcher
  pseudoSelector : Option (Loc → Bool)

/-- Go `subclassSelectorMatcher.match`. -/
def SubclassSelectorMatcher.scMatch (s : SubclassSelectorMatcher) (l : Loc) : Bool :=
  if s.idSelector != [] then
    l.node.attrs.any (fun a => a.key == enc "id" && a.val == s.idSelector)
  else if s.classSelector != [] then
    l.node.attrs.any (fun a =>
      a.key == enc "class" && (goFields a.val).any (fun v => v == s.classSelector))
  else
    match s.attributeSelector with
    | some a => a.asMatch l.node
    | none =>
      match s.pseudoSelector with
      | some f => f l
      | none => false

/-- Go `compoundSelectorMatcher`. -/
structure CompoundSelectorMatcher where
  m : Option TypeSelectorMatcher
  scm : List SubclassSelectorMatcher

/-- Go `compoundSelectorMatcher.match`. -/
def CompoundSelectorMatcher.csMatch (c : CompoundSelectorMatcher) (l : Loc) : Bool :=
  (match c.m with
   | some t => t.tsMatch l.node
   | none => true) && c.scm.all (fun m => m.scMatch l)

/-! ### Tree search and combinators (from `css.go`) -/

mutual
/-- Go `findAll`: test the node itself, then recurse into element children in
order. -/
def findAll (fn : Loc → Bool) (l : Loc) : List Loc :=
  (if fn l then [l] else []) ++ findAllKids fn [] l.node.children
  termination_by sizeOf l.node
  decreasing_by exact Node.sizeOf_children l.node

/-- The child loop of Go `findAll` (also the body of
`descendantCombinator.find`): skip non-element children, recurse into element
children.  `pr` accumulates the elder siblings, nearest first. -/
def findAllKids (fn : Loc → Bool) (pr : List Node) : List Node → List Loc
  | [] => []
  | c :: rest =>
    (if c.ntype == .elementNode then findAll fn ⟨pr, c, rest, true⟩ else [])
      ++ findAllKids fn (c :: pr) rest
  termination_by cs => sizeOf cs
  decreasing_by
    all_goals (simp only [List.cons.sizeOf_spec]; omega)
end

/-- A compiled combinator (`combinator` in `css.go`): the per-variant structs
`descendantCombinator`, `childCombinator`, `adjacentCombinator`,
`siblingCombinator`, each holding the compound matcher for the right-hand
side.  The matcher may be `none` when compilation already recorded an error
(Go stores a nil pointer); `Parse` then reports the error and the combinator
is never run, so `none` is modelled as matching nothing. -/
inductive Combinator where
  | descendant (m : Option CompoundSelectorMatcher)
  | child (m : Option CompoundSelectorMatcher)
  | adjacent (m : Option CompoundSelectorMatcher)
  | sibling (m : Option CompoundSelectorMatcher)

/-- Match against an optional compound matcher (see `Combinator`). -/
def matchOpt (m : Option CompoundSelectorMatcher) (l : Loc) : Bool :=
  match m with
  | some cm => cm.csMatch l
  | none => false

/-- Go `*Combinator.find` (dispatch over the four variants):
`descendantCombinator.find` runs `findAll` on each element child;
`childCombinator.find` filters the element children by the matcher;
`adjacentCombinator.find` takes the nearest preceding and nearest following
element siblings (in that order) and keeps those that match;
`siblingCombinator.find` filters all preceding element siblings (nearest
first), then all following element siblings (nearest first). -/
def Combinator.find : Combinator → Loc → List Loc
  | .descendant m, l => findAllKids (matchOpt m) [] l.node.children
  | .child m, l =>
    l.childLocs.filter (fun c => c.node.ntype == .elementNode && matchOpt m c)
  | .adjacent m, l =>
    (match l.prevLocs.find? (fun s => s.node.ntype == .elementNode) with
     | some pl => if matchOpt m pl then [pl] else []
     | none => []) ++
    (match l.nextLocs.find? (fun s => s.node.ntype == .elementNode) with
     | some nl => if matchOpt m nl then [nl] else []
     | none => [])
  | .sibling m, l =>
    l.prevLocs.filter (fun s => s.node.ntype == .elementNode && matchOpt m s) ++
    l.nextLocs.filter (fun s => s.node.ntype == .elementNode && matchOpt m s)

/-- Go `selector` (one compiled complex selector): the head compound matcher
plus the combinator chain. -/
structure CompiledSelector where
  m : Option CompoundSelectorMatcher
  combinators : List Combinator

/-- Go `selector.find`: seed with `findAll` under the head matcher, then
expand the candidate list through each combinator in turn. -/
def CompiledSelector.find (s : CompiledSelector) (l : Loc) : List Loc :=
  s.combinators.foldl (fun nodes c => (nodes.map c.find).flatten) (findAll (matchOpt s.m) l)

/-- Go `Selector`: a compiled selector list. -/
structure Selector where
  s : List CompiledSelector

/-- Go `Selector.Select`: append each member's `find` results in order. -/
def Selector.select (sel : Selector) (l : Loc) : List Loc :=
  sel.s.foldl (fun selected s => selected ++ s.find l) []

/-! ### Compiler (from `css.go`) -/

/-- Go `ParseError`: position plus message. -/
structure ParseError where
  pos : Int
  msg : GoStr
deriving DecidableEq, Repr

/-- Decimal rendering of an integer (Go `%d`). -/
def intDec (i : Int) : GoStr :=
  let n := i.natAbs
  let digits := (Nat.toDigits 10 n).map Char.toNat
  if i < 0 then 45 :: digits else digits

/-- Go `%q` of a byte string, restricted to the escapes needed for ASCII
bytes (sufficient for every string the package ever formats this way). -/
def goQuote (s : GoStr) : GoStr :=
  [34] ++ s.flatMap (fun b =>
    if b == 34 then [92, 34]
    else if b == 92 then [92, 92]
    else if b == 10 then [92, 110]
    else if b == 9 then [92, 116]
    else if b == 13 then [92, 114]
    else if 32 ≤ b && b ≤ 126 then [b]
    else [92, 120] ++ enc (Nat.toDigits 16 b |>.asString)) ++ [34]

/-- Go `token.String`: `"%s %q pos=%d"`. -/
def tokenText (t : Token) : GoStr :=
  typeName t.typ ++ [32] ++ goQuote t.s ++ enc " pos=" ++ intDec t.pos

/-- The `Error()` text of a pipeline error (`%v` formatting): `lexErr.Error`
returns the message, `parseErr.Error` returns `"consuming %s: %s"`. -/
def errText : Err → GoStr
  | .lexErr msg _ _ => msg
  | .parseErr msg t => enc "consuming " ++ tokenText t ++ enc ": " ++ msg
  | .oob => enc "runtime error: index out of range"
  | .noFuel => enc "model: out of fuel"

/-- Go `strings.ToLower`, restricted to ASCII (the only case the compiler
exercises: attribute selector keys/values with the `i` modifier). -/
def asciiToLower (s : GoStr) : GoStr :=
  s.map (fun b => if 65 ≤ b && b ≤ 90 then b + 32 else b)

/-- The compiler's mutable state (`compiler` in `css.go`): accumulated errors
and the error threshold. -/
structure CompilerSt where
  maxErrs : Nat
  errs : List ParseError

/-- Go `compiler.errorf`: record a `ParseError`, reporting whether the error
threshold has been reached. -/
def cErrorf (c : CompilerSt) (pos : Int) (msg : GoStr) : CompilerSt × Bool :=
  let c := { c with errs := c.errs ++ [⟨pos, msg⟩] }
  (c, decide (c.errs.length ≥ c.maxErrs))

/-- Go `compiler.err`: the first accumulated error, if any. -/
def CompilerSt.firstErr (c : CompilerSt) : Option ParseError := c.errs.head?

/-- Go `compiler.compileNth`: re-parse the function's raw argument tokens with
the An+B sub-parser and require trailing whitespace or EOF.  The fuel is
ample for the finite token slice (the sub-parser consumes at least one token
per loop iteration). -/
def compileNth (c : CompilerSt) (s : PseudoClassSel) : Option Nth × CompilerSt :=
  let fuel := s.args.length + 16
  match pANPlusB fuel fuel (newParserFromTokens s.args) with
  | .error e =>
    let (c, _) := cErrorf c s.pos (enc "failed to parse <an+b> expression: " ++ errText e)
    (none, c)
  | .ok (a, p) =>
    match pExpectWsOrEOF fuel fuel p with
    | .error e =>
      let (c, _) := cErrorf c s.pos (enc "failed to parse <an+b> expression: " ++ errText e)
      (none, c)
    | .ok _ => (some a, c)

/-- Go `compiler.nthChild`. -/
def cNthChild (c : CompilerSt) (s : PseudoClassSel) : Option (Loc → Bool) × CompilerSt :=
  match compileNth c s with
  | (none, c) => (none, c)
  | (some nth, c) => (some (nthChildMatcher nth), c)

/-- Go `compiler.nthLastChild`. -/
def cNthLastChild (c : CompilerSt) (s : PseudoClassSel) : Option (Loc → Bool) × CompilerSt :=
  match compileNth c s with
  | (none, c) => (none, c)
  | (some nth, c) => (some (nthLastChildMatcher nth), c)

/-- Go `compiler.nthLastOfType`. -/
def cNthLastOfType (c : CompilerSt) (s : PseudoClassSel) : Option (Loc → Bool) × CompilerSt :=
  match compileNth c s with
  | (none, c) => (none, c)
  | (some nth, c) => (some (nthLastOfTypeMatcher nth), c)

/-- Go `compiler.nthOfType`. -/
def cNthOfType (c : CompilerSt) (s : PseudoClassSel) : Option (Loc → Bool) × CompilerSt :=
  match compileNth c s with
  | (none, c) => (none, c)
  | (some nth, c) => (some (nthOfTypeMatcher nth), c)

/-- Go `compiler.pseudoClassSelector`: map the recognized pseudo-class idents
and functions to their matchers. -/
def cPseudoClassSel (c : CompilerSt) (s : PseudoClassSel) : Option (Loc → Bool) × CompilerSt :=
  if s.ident == enc "empty" then (some emptyMatcher, c)
  else if s.ident == enc "first-child" then (some firstChildMatcher, c)
  else if s.ident == enc "first-of-type" then (some firstOfTypeMatcher, c)
  else if s.ident == enc "last-child" then (some lastChildMatcher, c)
  else if s.ident == enc "last-of-type" then (some lastOfTypeMatcher, c)
  else if s.ident == enc "only-child" then (some onlyChildMatcher, c)
  else if s.ident == enc "only-of-type" then (some onlyOfTypeMatcher, c)
  else if s.ident == enc "root" then (some rootMatcher, c)
  else if s.ident != [] then
    let (c, _) := cErrorf c s.pos (enc "unsupported pseudo-class selector: " ++ s.ident)
    (none, c)
  else if s.function == enc "nth-child(" then cNthChild c s
  else if s.function == enc "nth-last-child(" then cNthLastChild c s
  else if s.function == enc "nth-last-of-type(" then cNthLastOfType c s
  else if s.function == enc "nth-of-type(" then cNthOfType c s
  else
    let (c, _) := cErrorf c s.pos (enc "unsupported pseudo-class selector: " ++ s.function)
    (none, c)

/-- Go `strings.Contains`: does `s` contain `sub` as a contiguous
substring? -/
def goContains (s sub : GoStr) : Bool :=
  (List.range (s.length + 1)).any (fun i => sub.isPrefixOf (s.drop i))

/-- Go `compiler.attributeSelector`: build the key/value predicate for the
attribute matcher. -/
def cAttrSel (c : CompilerSt) (s : AttrSel) : Option AttributeSelectorMatcher × CompilerSt :=
  let ns := newNamespaceMatcher s.wq.hasPfx s.wq.pfx
  let key := if s.modifier then asciiToLower s.wq.value else s.wq.value
  let val := if s.modifier then asciiToLower s.val else s.val
  let fn? : Option (GoStr → GoStr → Bool) :=
    if s.matcher == enc "=" then some (fun k v => k == key && v == val)
    else if s.matcher == enc "~=" then
      some (fun k v => if k != key then false else (goFields v).any (fun f => f == val))
    else if s.matcher == enc "|=" then
      some (fun k v => k == key && (v == val || (val ++ enc "-").isPrefixOf v))
    else if s.matcher == enc "^=" then some (fun k v => k == key && val.isPrefixOf v)
    else if s.matcher == enc "$=" then some (fun k v => k == key && val.isSuffixOf v)
    else if s.matcher == enc "*=" then some (fun k v => k == key && goContains v val)
    else if s.matcher == [] then some (fun k _ => k == key)
    else none
  match fn? with
  | none =>
    let (c, _) := cErrorf c s.pos (enc "unsupported attribute matcher: " ++ s.matcher)
    (none, c)
  | some fn =>
    let fn := if s.modifier then fun k v => fn (asciiToLower k) (asciiToLower v) else fn
    (some ⟨ns, fn⟩, c)

/-- Go `compiler.typeSelector`.  `lookup` stands for `atom.Lookup` of the
external `golang.org/x/net/html/atom` table: it maps a tag name to its
nonzero atom, or to 0 when the name is not in the vocabulary. -/
def cTypeSel (lookup : GoStr → Nat) (c : CompilerSt) (s : TypeSel) :
    Option TypeSelectorMatcher × CompilerSt :=
  if s.value == enc "*" then
    (some ⟨true, 0, newNamespaceMatcher s.hasPfx s.pfx⟩, c)
  else
    let a := lookup s.value
    if a == 0 then
      let (c, stop) := cErrorf c s.pos (enc "unrecognized node name: " ++ s.value)
      if stop then (none, c)
      else (some ⟨false, a, newNamespaceMatcher s.hasPfx s.pfx⟩, c)
    else (some ⟨false, a, newNamespaceMatcher s.hasPfx s.pfx⟩, c)

/-- Go `compiler.subclassSelector`. -/
def cSubclassSel (c : CompilerSt) (s : SubclassSel) : SubclassSelectorMatcher × CompilerSt :=
  let m : SubclassSelectorMatcher := ⟨s.idSelector, s.classSelector, none, none⟩
  let (m, c) :=
    match s.attributeSelector with
    | some a =>
      let (am, c) := cAttrSel c a
      ({ m with attributeSelector := am }, c)
    | none => (m, c)
  match s.pseudoClassSelector with
  | some pcs =>
    let (pm, c) := cPseudoClassSel c pcs
    ({ m with pseudoSelector := pm }, c)
  | none => (m, c)

/-- Go `compiler.compoundSelector`.  Returns `none` exactly where Go returns
a nil pointer: a pseudo-element selector was present and the error threshold
was reached. -/
def cCompoundSel (lookup : GoStr → Nat) (c : CompilerSt) (s : CompoundSel) :
    Option CompoundSelectorMatcher × CompilerSt :=
  let (tm, c) :=
    match s.typeSelector with
    | some ts => cTypeSel lookup c ts
    | none => (none, c)
  let (scm, c) := s.subClasses.foldl
    (fun (acc, c) sc =>
      let (m, c) := cSubclassSel c sc
      (acc ++ [m], c))
    (([] : List SubclassSelectorMatcher), c)
  if s.pseudoSelectors.length != 0 then
    let (c, stop) := cErrorf c s.pos (enc "pseudo element selectors not supported")
    if stop then (none, c)
    else (some ⟨tm, scm⟩, c)
  else (some ⟨tm, scm⟩, c)

theorem ComplexSel.sizeOf_next (s : ComplexSel) : sizeOf s.next < sizeOf s := by
  cases s with
  | mk p sel comb next => simp [ComplexSel.next]

/-- The chain-walking loop of Go `compiler.compile`: compile each link's
compound selector and dispatch on its incoming combinator; an unexpected
combinator records an error and skips the link's combinator (the Go
`continue`). -/
def cCombsNode (lookup : GoStr → Nat) : CompilerSt → GoStr → ComplexSel →
    List Combinator × CompilerSt
  | c, comb, .mk pos2 sel2 comb2 next2 =>
    let (sel, c) := cCompoundSel lookup c sel2
    let recur : CompilerSt → List Combinator × CompilerSt := fun c =>
      match next2 with
      | none => ([], c)
      | some n => cCombsNode lookup c comb2 n
    if comb == [] then
      let (rest, c) := recur c
      (Combinator.descendant sel :: rest, c)
    else if comb == enc ">" then
      let (rest, c) := recur c
      (Combinator.child sel :: rest, c)
    else if comb == enc "+" then
      let (rest, c) := recur c
      (Combinator.adjacent sel :: rest, c)
    else if comb == enc "~" then
      let (rest, c) := recur c
      (Combinator.sibling sel :: rest, c)
    else
      let (c, _) := cErrorf c pos2 (enc "unexpected combinator: " ++ comb)
      recur c

/-- Entry to the chain walk: nothing to do when the node has no successor
chain (`curr.next == nil` immediately). -/
def cCombs (lookup : GoStr → Nat) (c : CompilerSt) (comb : GoStr) :
    Option ComplexSel → List Combinator × CompilerSt
  | none => ([], c)
  | some nxt => cCombsNode lookup c comb nxt

/-- Go `compiler.compile` (one complex selector). -/
def cCompile (lookup : GoStr → Nat) (c : CompilerSt) (s : ComplexSel) :
    CompiledSelector × CompilerSt :=
  let (m0, c) := cCompoundSel lookup c s.sel
  let (combs, c) := cCombs lookup c s.combinator s.next
  (⟨m0, combs⟩, c)

/-- The compile phase of Go `Parse`: compile every complex selector of the
list with `maxErrs = 1`, then fail with the first recorded error if any. -/
def compileSelectorList (lookup : GoStr → Nat) (list : List ComplexSel) :
    Except ParseError Selector :=
  let (sels, c) := list.foldl
    (fun (acc, c) s =>
      let (m, c) := cCompile lookup c s
      (acc ++ [m], c))
    (([] : List CompiledSelector), (⟨1, []⟩ : CompilerSt))
  match c.firstErr with
  | some e => throw e
  | none => pure ⟨sels⟩

/-- Outcome of the full `Parse` pipeline: a compiled selector, the
`*ParseError` Go returns, or a modelled crash (runtime panic / fuel). -/
inductive ParseResult where
  | ok (s : Selector)
  | err (e : ParseError)
  | crash (e : Err)

/-- The `*ParseError` of a `ParseResult`, if that is the outcome (the
observable shape of a failed Go `Parse` call). -/
def ParseResult.parseError : ParseResult → Option ParseError
  | .err e => some e
  | _ => none

/-- Did `Parse` succeed? -/
def ParseResult.isOk : ParseResult → Bool
  | .ok _ => true
  | _ => false

/-- Go `Parse` (`css.go`): lex and parse the input, convert lexer/parser
errors to `ParseError` (`parseErr` carries its token's position, `lexErr` its
`last` offset), then compile. -/
def goParse (lookup : GoStr → Nat) (lf fuel : Nat) (s : GoStr) : ParseResult :=
  match pParse lf fuel (newParser s) with
  | .error (.parseErr msg t) => .err ⟨t.pos, msg⟩
  | .error (.lexErr msg last _) => .err ⟨last, msg⟩
  | .error e => .crash e
  | .ok (list, _) =>
    match compileSelectorList lookup list with
    | .error e => .err e
    | .ok sel => .ok sel

/-! ### Lexer invariants: the raw text of successive tokens tiles the input

Only `LexState.mkToken` writes a token's `raw` and moves `last`; every other
lexer operation moves `pos` alone.  The lemmas below make that precise and
yield the round-trip property of tokenization. -/

theorem bindOk {α β} {x : Except Err α} {f : α → Except Err β} {b : β}
    (h : x >>= f = .ok b) : ∃ a, x = .ok a ∧ f a = .ok b := by
  cases x with
  | error e => simp [Bind.bind, Except.bind] at h
  | ok a => exact ⟨a, rfl, by simpa [Bind.bind, Except.bind] using h⟩

theorem pureOk {α} {a b : α} (h : (pure a : Except Err α) = .ok b) : a = b := by
  simpa [pure, Except.pure] using h

/-- State evolution that leaves the input and the `last` cursor untouched
(everything the lexer does between two `mkToken` calls). -/
def SL (st st' : LexState) : Prop := st'.s = st.s ∧ st'.last = st.last

theorem SL.refl (st : LexState) : SL st st := ⟨rfl, rfl⟩

theorem SL.trans {a b c : LexState} (h1 : SL a b) (h2 : SL b c) : SL a c :=
  ⟨h1.1 ▸ h2.1, h1.2 ▸ h2.2⟩

theorem pop_sl {st : LexState} {r st'} (h : st.pop = .ok (r, st')) : SL st st' := by
  unfold LexState.pop at h
  split at h
  · exact (Prod.mk.injEq .. ▸ pureOk h).2 ▸ SL.refl st
  · split at h
    · simp [throw, throwThe, MonadExceptOf.throw] at h
    · exact (Prod.mk.injEq .. ▸ pureOk h).2 ▸ ⟨rfl, rfl⟩

theorem push_sl (st : LexState) (r : Rune) : SL st (st.push r) := ⟨rfl, rfl⟩

theorem popN_sl : ∀ {n : Nat} {st st' : LexState}, st.popN n = .ok st' → SL st st'
  | 0, st, st', h => pureOk h ▸ SL.refl st
  | n + 1, st, st', h => by
    rw [LexState.popN] at h
    obtain ⟨⟨r, st1⟩, hpop, h⟩ := bindOk h
    exact (pop_sl hpop).trans (popN_sl h)

theorem skipWsRunes_sl : ∀ {fuel : Nat} {st st' : LexState},
    skipWsRunes st fuel = .ok st' → SL st st'
  | 0, st, st', h => by simp [skipWsRunes, throw, throwThe, MonadExceptOf.throw] at h
  | fuel + 1, st, st', h => by
    rw [skipWsRunes] at h
    obtain ⟨r, hpeek, h⟩ := bindOk h
    split at h
    · obtain ⟨⟨r2, st1⟩, hpop, h⟩ := bindOk h
      exact (pop_sl hpop).trans (skipWsRunes_sl h)
    · exact pureOk h ▸ SL.refl st

theorem consumeEscapeLoop_sl : ∀ {fuel : Nat} {st : LexState} {b hexRune n st' b'},
    consumeEscapeLoop st b hexRune n fuel = .ok (st', b') → SL st st'
  | 0, st, b, hexRune, n, st', b', h => by
    simp [consumeEscapeLoop, throw, throwThe, MonadExceptOf.throw] at h
  | fuel + 1, st, b, hexRune, n, st', b', h => by
    rw [consumeEscapeLoop] at h
    obtain ⟨r, hpeek, h⟩ := bindOk h
    split at h
    · obtain ⟨⟨r2, st1⟩, hpop, h⟩ := bindOk h
      try dsimp only at h
      split at h
      · simp [throw, throwThe, MonadExceptOf.throw] at h
      · exact (pop_sl hpop).trans (consumeEscapeLoop_sl h)
    · split at h
      · obtain ⟨⟨r2, st1⟩, hpop, h⟩ := bindOk h
        try dsimp only at h
        exact (pop_sl hpop).trans (consumeEscapeLoop_sl h)
      · split at h
        · simp [throw, throwThe, MonadExceptOf.throw] at h
        · exact (Prod.mk.injEq .. ▸ pureOk h).1 ▸ SL.refl st

theorem consumeEscape_sl {fuel : Nat} {st : LexState} {b st' b'}
    (h : consumeEscape fuel st b = .ok (st', b')) : SL st st' := by
  rw [consumeEscape] at h
  obtain ⟨⟨r, st1⟩, hpop, h⟩ := bindOk h
  try dsimp only at h
  split at h
  · simp [throw, throwThe, MonadExceptOf.throw] at h
  · split at h
    · exact (pop_sl hpop).trans ((Prod.mk.injEq .. ▸ pureOk h).1 ▸ SL.refl st1)
    · exact (pop_sl hpop).trans (consumeEscapeLoop_sl h)

theorem consumeName_sl : ∀ {fuel : Nat} {st : LexState} {b st' b'},
    consumeName st b fuel = .ok (st', b') → SL st st'
  | 0, st, b, st', b', h => by
    simp [consumeName, throw, throwThe, MonadExceptOf.throw] at h
  | fuel + 1, st, b, st', b', h => by
    rw [consumeName] at h
    obtain ⟨r, hpeek, h⟩ := bindOk h
    split at h
    · obtain ⟨⟨r2, st1⟩, hpop, h⟩ := bindOk h
      try dsimp only at h
      exact (pop_sl hpop).trans (consumeName_sl h)
    · obtain ⟨p1, hp1, h⟩ := bindOk h
      split at h
      · obtain ⟨⟨r2, st1⟩, hpop, h⟩ := bindOk h
        try dsimp only at h
        obtain ⟨⟨st2, b2⟩, hesc, h⟩ := bindOk h
        try dsimp only at h
        exact ((pop_sl hpop).trans (consumeEscape_sl hesc)).trans (consumeName_sl h)
      · exact (Prod.mk.injEq .. ▸ pureOk h).1 ▸ SL.refl st

theorem consumeDigits_sl : ∀ {fuel : Nat} {st : LexState} {b st' b'},
    consumeDigits st b fuel = .ok (st', b') → SL st st'
  | 0, st, b, st', b', h => by
    simp [consumeDigits, throw, throwThe, MonadExceptOf.throw] at h
  | fuel + 1, st, b, st', b', h => by
    rw [consumeDigits] at h
    obtain ⟨r, hpeek, h⟩ := bindOk h
    split at h
    · obtain ⟨⟨r2, st1⟩, hpop, h⟩ := bindOk h
      try dsimp only at h
      exact (pop_sl hpop).trans (consumeDigits_sl h)
    · exact (Prod.mk.injEq .. ▸ pureOk h).1 ▸ SL.refl st

theorem consumeSign_sl {st : LexState} {b st' b'}
    (h : consumeSign st b = .ok (st', b')) : SL st st' := by
  rw [consumeSign] at h
  obtain ⟨p, hp, h⟩ := bindOk h
  split at h
  · obtain ⟨⟨r, st1⟩, hpop, h⟩ := bindOk h
    try dsimp only at h
    exact (pop_sl hpop).trans ((Prod.mk.injEq .. ▸ pureOk h).1 ▸ SL.refl st1)
  · exact (Prod.mk.injEq .. ▸ pureOk h).1 ▸ SL.refl st

theorem consumeFrac_sl {fuel : Nat} {st : LexState} {b f st' b' f'}
    (h : consumeFrac fuel st b f = .ok (st', b', f')) : SL st st' := by
  rw [consumeFrac] at h
  obtain ⟨p, hp, h⟩ := bindOk h
  obtain ⟨p1, hp1, h⟩ := bindOk h
  split at h
  · obtain ⟨⟨r1, st1⟩, hx, h⟩ := bindOk h
    try dsimp only at h
    obtain ⟨⟨r2, st2⟩, hy, h⟩ := bindOk h
    try dsimp only at h
    obtain ⟨⟨st3, b3⟩, hd, h⟩ := bindOk h
    try dsimp only at h
    exact (((pop_sl hx).trans (pop_sl hy)).trans (consumeDigits_sl hd)).trans
      ((Prod.mk.injEq .. ▸ pureOk h).1 ▸ SL.refl st3)
  · exact (Prod.mk.injEq .. ▸ pureOk h).1 ▸ SL.refl st

theorem consumeExp_sl {fuel : Nat} {st : LexState} {b f st' b' f'}
    (h : consumeExp fuel st b f = .ok (st', b', f')) : SL st st' := by
  rw [consumeExp] at h
  obtain ⟨r1, hr1, h⟩ := bindOk h
  obtain ⟨r2, hr2, h⟩ := bindOk h
  obtain ⟨r3, hr3, h⟩ := bindOk h
  split at h
  · split at h
    · obtain ⟨⟨e1, st1⟩, hx, h⟩ := bindOk h
      try dsimp only at h
      obtain ⟨⟨e2, st2⟩, hy, h⟩ := bindOk h
      try dsimp only at h
      obtain ⟨⟨st3, b3⟩, hd, h⟩ := bindOk h
      try dsimp only at h
      exact (((pop_sl hx).trans (pop_sl hy)).trans (consumeDigits_sl hd)).trans
        ((Prod.mk.injEq .. ▸ pureOk h).1 ▸ SL.refl st3)
    · split at h
      · obtain ⟨⟨e1, st1⟩, hx, h⟩ := bindOk h
        try dsimp only at h
        obtain ⟨⟨e2, st2⟩, hy, h⟩ := bindOk h
        try dsimp only at h
        obtain ⟨⟨e3, stw⟩, hw, h⟩ := bindOk h
        try dsimp only at h
        obtain ⟨⟨st3, b3⟩, hd, h⟩ := bindOk h
        try dsimp only at h
        exact ((((pop_sl hx).trans (pop_sl hy)).trans (pop_sl hw)).trans
          (consumeDigits_sl hd)).trans ((Prod.mk.injEq .. ▸ pureOk h).1 ▸ SL.refl st3)
      · exact (Prod.mk.injEq .. ▸ pureOk h).1 ▸ SL.refl st
  · exact (Prod.mk.injEq .. ▸ pureOk h).1 ▸ SL.refl st

theorem consumeNumber_sl {fuel : Nat} {st : LexState} {st' b b' f}
    (h : consumeNumber fuel st b = .ok (st', b', f)) : SL st st' := by
  rw [consumeNumber] at h
  obtain ⟨⟨st1, b1⟩, h1, h⟩ := bindOk h
  try dsimp only at h
  obtain ⟨⟨st2, b2⟩, h2, h⟩ := bindOk h
  try dsimp only at h
  obtain ⟨⟨st3, b3, f3⟩, h3, h⟩ := bindOk h
  try dsimp only at h
  exact (((consumeSign_sl h1).trans (consumeDigits_sl h2)).trans
    (consumeFrac_sl h3)).trans (consumeExp_sl h)

theorem startsURLFin_sl {st : LexState} {b r ok st' b'}
    (h : startsURLFin st b r = .ok (ok, st', b')) : SL st st' := by
  rw [startsURLFin] at h
  split at h
  · have hp := pureOk h
    simp only [Prod.mk.injEq] at hp
    obtain ⟨-, h2, -⟩ := hp
    subst h2
    exact SL.refl _
  · obtain ⟨⟨c1, st1⟩, hq1, h⟩ := bindOk h
    try dsimp only at h
    obtain ⟨⟨c2, st2⟩, hq2, h⟩ := bindOk h
    try dsimp only at h
    obtain ⟨⟨c3, st3⟩, hq3, h⟩ := bindOk h
    try dsimp only at h
    obtain ⟨⟨c4, st4⟩, hq4, h⟩ := bindOk h
    try dsimp only at h
    have hall := ((pop_sl hq1).trans (pop_sl hq2)).trans ((pop_sl hq3).trans (pop_sl hq4))
    have hp := pureOk h
    simp only [Prod.mk.injEq] at hp
    obtain ⟨-, h2, -⟩ := hp
    subst h2
    exact hall

theorem startsURLTail_sl {st : LexState} {b n ok st' b'}
    (h : startsURLTail st b n = .ok (ok, st', b')) : SL st st' := by
  rw [startsURLTail] at h
  obtain ⟨r1, hr1, h⟩ := bindOk h
  obtain ⟨r2, hr2, h⟩ := bindOk h
  exact startsURLFin_sl h

theorem startsURL_sl {st : LexState} {b ok st' b'}
    (h : startsURL st b = .ok (ok, st', b')) : SL st st' := by
  rw [startsURL] at h
  obtain ⟨p0, hp0, h⟩ := bindOk h
  split at h
  · have hp := pureOk h
    simp only [Prod.mk.injEq] at hp
    obtain ⟨-, h2, -⟩ := hp
    subst h2
    exact SL.refl _
  · obtain ⟨p1, hp1, h⟩ := bindOk h
    split at h
    · have hp := pureOk h
      simp only [Prod.mk.injEq] at hp
      obtain ⟨-, h2, -⟩ := hp
      subst h2
      exact SL.refl _
    · obtain ⟨p2, hp2, h⟩ := bindOk h
      split at h
      · have hp := pureOk h
        simp only [Prod.mk.injEq] at hp
        obtain ⟨-, h2, -⟩ := hp
        subst h2
        exact SL.refl _
      · obtain ⟨p3, hp3, h⟩ := bindOk h
        split at h
        · have hp := pureOk h
          simp only [Prod.mk.injEq] at hp
          obtain ⟨-, h2, -⟩ := hp
          subst h2
          exact SL.refl _
        · obtain ⟨w4, hw4, h⟩ := bindOk h
          split at h
          · exact startsURLTail_sl h
          · obtain ⟨w5, hw5, h⟩ := bindOk h
            split at h
            · exact startsURLTail_sl h
            · exact startsURLTail_sl h

theorem consumeURLws_sl : ∀ {fuel : Nat} {st : LexState} {b st' b'},
    consumeURLws st b fuel = .ok (st', b') → SL st st'
  | 0, st, b, st', b', h => by
    simp [consumeURLws, throw, throwThe, MonadExceptOf.throw] at h
  | fuel + 1, st, b, st', b', h => by
    rw [consumeURLws] at h
    obtain ⟨r, hpeek, h⟩ := bindOk h
    split at h
    · obtain ⟨⟨r2, st1⟩, hpop, h⟩ := bindOk h
      try dsimp only at h
      exact (pop_sl hpop).trans (consumeURLws_sl h)
    · exact (Prod.mk.injEq .. ▸ pureOk h).1 ▸ SL.refl st

theorem withString_raw (t : Token) (s : GoStr) : (t.withString s).raw = t.raw := rfl
theorem withString_typ (t : Token) (s : GoStr) : (t.withString s).typ = t.typ := rfl
theorem withFlag_raw (t : Token) (f : TokenFlag) : (t.withFlag f).raw = t.raw := rfl
theorem withFlag_typ (t : Token) (f : TokenFlag) : (t.withFlag f).typ = t.typ := rfl
theorem withDim_raw (t : Token) (d : GoStr) : (t.withDim d).raw = t.raw := rfl
theorem withDim_typ (t : Token) (d : GoStr) : (t.withDim d).typ = t.typ := rfl

theorem mkToken_ok {l : LexState} {typ t st'} (h : l.mkToken typ = .ok (t, st')) :
    st'.s = l.s ∧ st'.pos = l.pos ∧ st'.last = l.pos ∧ 0 ≤ l.last ∧ l.last ≤ l.pos ∧
    l.pos ≤ (l.s.length : Int) ∧ t.raw = extract l.s l.last l.pos ∧ t.typ = typ := by
  rw [LexState.mkToken] at h
  split at h
  · next hc =>
    have hp := pureOk h
    simp only [Prod.mk.injEq] at hp
    obtain ⟨h1, h2⟩ := hp
    subst h2
    exact ⟨rfl, rfl, rfl, hc.1, hc.2.1, hc.2.2, by rw [← h1], by rw [← h1]⟩
  · simp [throw, throwThe, MonadExceptOf.throw] at h

/-- What one successful `lexer.next`-style step guarantees: the input is
unchanged, `last` catches up with `pos`, the cursor moved monotonically within
bounds, the token's raw text is exactly the traversed slice, and an EOF token
is only emitted with the cursor at the end of the input. -/
def TokStep (st : LexState) (t : Token) (st' : LexState) : Prop :=
  st'.s = st.s ∧ st'.last = st'.pos ∧ 0 ≤ st.last ∧ st.last ≤ st'.last ∧
  st'.last ≤ (st.s.length : Int) ∧ t.raw = extract st.s st.last st'.last ∧
  (t.typ = .eof → st'.last = (st.s.length : Int))

/-- A `TokStep` out of an intermediate state transfers to any earlier state
with the same input and `last` cursor. -/
theorem TokStep.mono {st0 st : LexState} {t st'} (hsl : SL st0 st) (h : TokStep st t st') :
    TokStep st0 t st' := by
  obtain ⟨hs, hl⟩ := hsl
  obtain ⟨h1, h2, h3, h4, h5, h6, h7⟩ := h
  exact ⟨hs ▸ h1, h2, hl ▸ h3, hl ▸ h4, hs ▸ h5, by rw [h6, hs, hl], fun he => hs ▸ h7 he⟩

/-- A non-EOF `mkToken` after cursor-only movement is a `TokStep`. -/
theorem tokStep_mk {st0 st2 : LexState} {typ t st3} (hsl : SL st0 st2)
    (h : st2.mkToken typ = .ok (t, st3)) (hne : typ ≠ TokenType.eof) : TokStep st0 t st3 := by
  obtain ⟨hs, hl⟩ := hsl
  obtain ⟨h1, h2, h3, h4, h5, h6, h7, h8⟩ := mkToken_ok h
  refine ⟨h1.trans hs, h3.trans h2.symm, hl ▸ h4, hl ▸ (h3 ▸ h5), ?_, ?_, ?_⟩
  · rw [h3, hs] at *; exact hs ▸ (h3 ▸ h6)
  · rw [h7, hs, hl, h3]
  · intro he; exact absurd (h8 ▸ he) hne

/-- An `mkToken` issued with the cursor at or past the end of the input is a
`TokStep` (covers the EOF token). -/
theorem tokStep_mk_end {st0 st2 : LexState} {typ t st3} (hsl : SL st0 st2)
    (h : st2.mkToken typ = .ok (t, st3)) (hend : (st2.s.length : Int) ≤ st2.pos) :
    TokStep st0 t st3 := by
  obtain ⟨hs, hl⟩ := hsl
  obtain ⟨h1, h2, h3, h4, h5, h6, h7, h8⟩ := mkToken_ok h
  have hpos : st2.pos = (st2.s.length : Int) := le_antisymm h6 hend
  refine ⟨h1.trans hs, h3.trans h2.symm, hl ▸ h4, hl ▸ (h3 ▸ h5), ?_, ?_, ?_⟩
  · rw [h3, hpos, hs]
  · rw [h7, hs, hl, h3]
  · intro _; rw [h3, hpos, hs]

/-- `TokStep` only looks at a token through `raw` and `typ`. -/
theorem TokStep.congrTok {st : LexState} {t t' : Token} {st'}
    (hr : t'.raw = t.raw) (hy : t'.typ = t.typ) (h : TokStep st t st') : TokStep st t' st' := by
  obtain ⟨h1, h2, h3, h4, h5, h6, h7⟩ := h
  exact ⟨h1, h2, h3, h4, h5, hr ▸ h6, fun he => h7 (hy ▸ he)⟩

theorem lexString_step : ∀ {fuel : Nat} {quote st b t st'},
    lexString quote st b fuel = .ok (t, st') → TokStep st t st'
  | 0, quote, st, b, t, st', h => by
    simp [lexString, throw, throwThe, MonadExceptOf.throw] at h
  | fuel + 1, quote, st, b, t, st', h => by
    rw [lexString] at h
    obtain ⟨⟨r, st1⟩, hpop, h⟩ := bindOk h
    try dsimp only at h
    split at h
    · obtain ⟨⟨t0, st2⟩, hmk, h⟩ := bindOk h
      try dsimp only at h
      have hp := pureOk h
      simp only [Prod.mk.injEq] at hp
      obtain ⟨ht, hst⟩ := hp
      subst hst
      exact (TokStep.congrTok (ht ▸ withString_raw t0 b) (ht ▸ withString_typ t0 b)
        (tokStep_mk (pop_sl hpop) hmk (by simp))).mono (SL.refl st)
    · split at h
      · simp [throw, throwThe, MonadExceptOf.throw] at h
      · split at h
        · simp [throw, throwThe, MonadExceptOf.throw] at h
        · split at h
          · obtain ⟨p, hp, h⟩ := bindOk h
            split at h
            · exact (lexString_step h).mono (pop_sl hpop)
            · split at h
              · simp [throw, throwThe, MonadExceptOf.throw] at h
              · -- escaped code point
                split at h
                · simp [throw, throwThe, MonadExceptOf.throw] at h
                · simp [throw, throwThe, MonadExceptOf.throw] at h
                · next st2 b2 hesc =>
                  exact (lexString_step h).mono ((pop_sl hpop).trans (consumeEscape_sl hesc))
          · exact (lexString_step h).mono (pop_sl hpop)

theorem consumeURLloop_step : ∀ {fuel : Nat} {st b t st'},
    consumeURL.consumeURLloop st b fuel = .ok (t, st') → TokStep st t st'
  | 0, st, b, t, st', h => by
    simp [consumeURL.consumeURLloop, throw, throwThe, MonadExceptOf.throw] at h
  | fuel + 1, st, b, t, st', h => by
    rw [consumeURL.consumeURLloop] at h
    obtain ⟨⟨r, st1⟩, hpop, h⟩ := bindOk h
    try dsimp only at h
    split at h
    · obtain ⟨⟨t0, st2⟩, hmk, h⟩ := bindOk h
      try dsimp only at h
      have hp := pureOk h
      simp only [Prod.mk.injEq] at hp
      obtain ⟨ht, hst⟩ := hp
      subst hst
      exact (TokStep.congrTok (ht ▸ withString_raw t0 _) (ht ▸ withString_typ t0 _)
        (tokStep_mk (pop_sl hpop) hmk (by simp))).mono (SL.refl st)
    · split at h
      · simp [throw, throwThe, MonadExceptOf.throw] at h
      · split at h
        · -- whitespace inside the URL
          obtain ⟨⟨st2, b2⟩, hws, h⟩ := bindOk h
          try dsimp only at h
          obtain ⟨⟨r2, st3⟩, hpop2, h⟩ := bindOk h
          try dsimp only at h
          split at h
          · obtain ⟨⟨t0, st4⟩, hmk, h⟩ := bindOk h
            try dsimp only at h
            have hp := pureOk h
            simp only [Prod.mk.injEq] at hp
            obtain ⟨ht, hst⟩ := hp
            subst hst
            have hsl := ((pop_sl hpop).trans (consumeURLws_sl hws)).trans (pop_sl hpop2)
            exact (TokStep.congrTok (ht ▸ withString_raw t0 _) (ht ▸ withString_typ t0 _)
              (tokStep_mk hsl hmk (by simp))).mono (SL.refl st)
          · simp [throw, throwThe, MonadExceptOf.throw] at h
        · split at h
          · simp [throw, throwThe, MonadExceptOf.throw] at h
          · split at h
            · obtain ⟨p, hp, h⟩ := bindOk h
              split at h
              · simp [throw, throwThe, MonadExceptOf.throw] at h
              · split at h
                · simp [throw, throwThe, MonadExceptOf.throw] at h
                · simp [throw, throwThe, MonadExceptOf.throw] at h
                · next st2 b2 hesc =>
                  exact (consumeURLloop_step h).mono
                    ((pop_sl hpop).trans (consumeEscape_sl hesc))
            · exact (consumeURLloop_step h).mono (pop_sl hpop)

theorem consumeURL_step : ∀ {fuel : Nat} {st b t st'},
    consumeURL st b fuel = .ok (t, st') → TokStep st t st'
  | 0, st, b, t, st', h => by
    simp [consumeURL, throw, throwThe, MonadExceptOf.throw] at h
  | fuel + 1, st, b, t, st', h => by
    rw [consumeURL] at h
    obtain ⟨⟨st1, b1⟩, hws, h⟩ := bindOk h
    try dsimp only at h
    exact (consumeURLloop_step h).mono (consumeURLws_sl hws)

theorem numericToken_step {fuel : Nat} {st t st'}
    (h : numericToken fuel st = .ok (t, st')) : TokStep st t st' := by
  rw [numericToken] at h
  obtain ⟨⟨st1, b1, f1⟩, hnum, h⟩ := bindOk h
  try dsimp only at h
  obtain ⟨p0, hp0, h⟩ := bindOk h
  obtain ⟨p1, hp1, h⟩ := bindOk h
  obtain ⟨p2, hp2, h⟩ := bindOk h
  have hsl1 : SL st st1 := consumeNumber_sl hnum
  split at h
  · obtain ⟨⟨st2, d2⟩, hname, h⟩ := bindOk h
    try dsimp only at h
    obtain ⟨⟨t0, st3⟩, hmk, h⟩ := bindOk h
    try dsimp only at h
    have hp := pureOk h
    simp only [Prod.mk.injEq] at hp
    obtain ⟨ht, hst⟩ := hp
    subst hst
    have hstep := tokStep_mk (hsl1.trans (consumeName_sl hname)) hmk (by simp)
    exact (TokStep.congrTok (by rw [← ht, withDim_raw, withFlag_raw, withString_raw])
      (by rw [← ht, withDim_typ, withFlag_typ, withString_typ]) hstep).mono (SL.refl st)
  · split at h
    · obtain ⟨⟨r2, st2⟩, hpop, h⟩ := bindOk h
      try dsimp only at h
      obtain ⟨⟨t0, st3⟩, hmk, h⟩ := bindOk h
      try dsimp only at h
      have hp := pureOk h
      simp only [Prod.mk.injEq] at hp
      obtain ⟨ht, hst⟩ := hp
      subst hst
      have hstep := tokStep_mk (hsl1.trans (pop_sl hpop)) hmk (by simp)
      exact (TokStep.congrTok (by rw [← ht, withFlag_raw, withString_raw])
        (by rw [← ht, withFlag_typ, withString_typ]) hstep).mono (SL.refl st)
    · obtain ⟨⟨t0, st3⟩, hmk, h⟩ := bindOk h
      try dsimp only at h
      have hp := pureOk h
      simp only [Prod.mk.injEq] at hp
      obtain ⟨ht, hst⟩ := hp
      subst hst
      have hstep := tokStep_mk hsl1 hmk (by simp)
      exact (TokStep.congrTok (by rw [← ht, withFlag_raw, withString_raw])
        (by rw [← ht, withFlag_typ, withString_typ]) hstep).mono (SL.refl st)

theorem identLikeToken_step {fuel : Nat} {st t st'}
    (h : identLikeToken fuel st = .ok (t, st')) : TokStep st t st' := by
  rw [identLikeToken] at h
  obtain ⟨⟨started, st1, b1⟩, hsu, h⟩ := bindOk h
  try dsimp only at h
  have hsl1 : SL st st1 := startsURL_sl hsu
  split at h
  · exact (consumeURL_step h).mono hsl1
  · obtain ⟨⟨st2, b2⟩, hname, h⟩ := bindOk h
    try dsimp only at h
    obtain ⟨p, hpk, h⟩ := bindOk h
    have hsl2 : SL st st2 := hsl1.trans (consumeName_sl hname)
    split at h
    · obtain ⟨⟨r2, st3⟩, hpop, h⟩ := bindOk h
      try dsimp only at h
      obtain ⟨⟨t0, st4⟩, hmk, h⟩ := bindOk h
      try dsimp only at h
      have hp := pureOk h
      simp only [Prod.mk.injEq] at hp
      obtain ⟨ht, hst⟩ := hp
      subst hst
      have hstep := tokStep_mk (hsl2.trans (pop_sl hpop)) hmk (by simp)
      exact (TokStep.congrTok (ht ▸ withString_raw t0 _) (ht ▸ withString_typ t0 _)
        hstep).mono (SL.refl st)
    · obtain ⟨⟨t0, st4⟩, hmk, h⟩ := bindOk h
      try dsimp only at h
      have hp := pureOk h
      simp only [Prod.mk.injEq] at hp
      obtain ⟨ht, hst⟩ := hp
      subst hst
      have hstep := tokStep_mk hsl2 hmk (by simp)
      exact (TokStep.congrTok (ht ▸ withString_raw t0 _) (ht ▸ withString_typ t0 _)
        hstep).mono (SL.refl st)

theorem lexHashTail_step {fuel : Nat} {st r t st'}
    (h : lexHashTail fuel st r = .ok (t, st')) : TokStep st t st' := by
  rw [lexHashTail] at h
  obtain ⟨⟨st1, b1⟩, hname, h⟩ := bindOk h
  try dsimp only at h
  obtain ⟨⟨t0, st2⟩, hmk, h⟩ := bindOk h
  try dsimp only at h
  have hp := pureOk h
  simp only [Prod.mk.injEq] at hp
  obtain ⟨ht, hst⟩ := hp
  subst hst
  have hstep := tokStep_mk (consumeName_sl hname) hmk (by simp)
  exact (TokStep.congrTok (by rw [← ht, withFlag_raw, withString_raw])
    (by rw [← ht, withFlag_typ, withString_typ]) hstep).mono (SL.refl st)

/-- A successful `pop` of the rune 0 on NUL-free input means the cursor was
already at or past the end (and the state is unchanged). -/
theorem pop_zero {st : LexState} {st1} (h : st.pop = .ok (0, st1)) (h0 : 0 ∉ st.s) :
    st1 = st ∧ (st.s.length : Int) ≤ st.pos := by
  rw [LexState.pop] at h
  split at h
  · next hle =>
    have hp := pureOk h
    simp only [Prod.mk.injEq] at hp
    exact ⟨hp.2.symm, hle⟩
  · split at h
    · simp [throw, throwThe, MonadExceptOf.throw] at h
    · next hgt hneg =>
      have hp := pureOk h
      simp only [Prod.mk.injEq] at hp
      exfalso
      have hlen : st.pos.toNat < st.s.length := by omega
      have hsuff : st.suffix ≠ [] := by
        unfold LexState.suffix
        intro hemp
        have hdl := List.length_drop st.pos.toNat st.s
        rw [hemp] at hdl
        simp at hdl
        omega
      obtain ⟨bh, btl, hcons⟩ := List.exists_cons_of_ne_nil hsuff
      have hz : bh = 0 := by
        apply @decodeRune_fst_zero _ btl
        rw [← hcons]
        exact hp.1
      apply h0
      have hmem0 : bh ∈ st.suffix := by rw [hcons]; exact List.mem_cons_self _ _
      have hmem : bh ∈ st.s := List.mem_of_mem_drop hmem0
      rwa [hz] at hmem

theorem lexNext_step {fuel : Nat} {st : LexState} {t st'} (h0 : 0 ∉ st.s)
    (h : lexNext fuel st = .ok (t, st')) : TokStep st t st' := by
  rw [lexNext] at h
  obtain ⟨⟨r, st1⟩, hpop, h⟩ := bindOk h
  try dsimp only at h
  have hsl1 : SL st st1 := pop_sl hpop
  by_cases hc1 : isWhitespace r = true
  · rw [if_pos hc1] at h
    obtain ⟨st2, hws, h⟩ := bindOk h
    exact tokStep_mk (hsl1.trans (skipWsRunes_sl hws)) h (by simp)
  · rw [if_neg hc1] at h
    by_cases hc2 : isDigit r = true
    · rw [if_pos hc2] at h
      exact (numericToken_step h).mono (hsl1.trans (push_sl st1 r))
    · rw [if_neg hc2] at h
      by_cases hc3 : isNameStart r = true
      · rw [if_pos hc3] at h
        exact (identLikeToken_step h).mono (hsl1.trans (push_sl st1 r))
      · rw [if_neg hc3] at h
        by_cases hc4 : (r == 34 || r == 39) = true
        · rw [if_pos hc4] at h
          exact (lexString_step h).mono hsl1
        · rw [if_neg hc4] at h
          by_cases hc5 : (r == 0) = true
          · rw [if_pos hc5] at h
            have hr : r = 0 := by simpa using hc5
            subst hr
            obtain ⟨hst1, hend⟩ := pop_zero hpop h0
            exact tokStep_mk_end hsl1 h (by rw [hst1]; exact hend)
          · rw [if_neg hc5] at h
            by_cases hc6 : (r == 35) = true
            · rw [if_pos hc6] at h
              obtain ⟨p0, hp0, h⟩ := bindOk h
              split at h
              · exact (lexHashTail_step h).mono hsl1
              · obtain ⟨p1, hp1, h⟩ := bindOk h
                split at h
                · exact (lexHashTail_step h).mono hsl1
                · exact tokStep_mk hsl1 h (by simp)
            · rw [if_neg hc6] at h
              by_cases hc7 : (r == 40) = true
              · rw [if_pos hc7] at h
                exact tokStep_mk hsl1 h (by simp)
              · rw [if_neg hc7] at h
                by_cases hc8 : (r == 41) = true
                · rw [if_pos hc8] at h
                  exact tokStep_mk hsl1 h (by simp)
                · rw [if_neg hc8] at h
                  by_cases hc9 : (r == 43) = true
                  · rw [if_pos hc9] at h
                    obtain ⟨p0, hp0, h⟩ := bindOk h
                    obtain ⟨p1, hp1, h⟩ := bindOk h
                    split at h
                    · exact (numericToken_step h).mono (hsl1.trans (push_sl st1 r))
                    · exact tokStep_mk hsl1 h (by simp)
                  · rw [if_neg hc9] at h
                    by_cases hc10 : (r == 44) = true
                    · rw [if_pos hc10] at h
                      exact tokStep_mk hsl1 h (by simp)
                    · rw [if_neg hc10] at h
                      by_cases hc11 : (r == 45) = true
                      · rw [if_pos hc11] at h
                        obtain ⟨p0, hp0, h⟩ := bindOk h
                        obtain ⟨p1, hp1, h⟩ := bindOk h
                        split at h
                        · exact (numericToken_step h).mono (hsl1.trans (push_sl st1 r))
                        · split at h
                          · obtain ⟨st2, hpn, h⟩ := bindOk h
                            exact tokStep_mk (hsl1.trans (popN_sl hpn)) h (by simp)
                          · split at h
                            · exact (identLikeToken_step h).mono (hsl1.trans (push_sl st1 r))
                            · exact tokStep_mk hsl1 h (by simp)
                      · rw [if_neg hc11] at h
                        by_cases hc12 : (r == 46) = true
                        · rw [if_pos hc12] at h
                          obtain ⟨p0, hp0, h⟩ := bindOk h
                          obtain ⟨p1, hp1, h⟩ := bindOk h
                          split at h
                          · exact (numericToken_step h).mono (hsl1.trans (push_sl st1 r))
                          · exact tokStep_mk hsl1 h (by simp)
                        · rw [if_neg hc12] at h
                          by_cases hc13 : (r == 58) = true
                          · rw [if_pos hc13] at h
                            exact tokStep_mk hsl1 h (by simp)
                          · rw [if_neg hc13] at h
                            by_cases hc14 : (r == 59) = true
                            · rw [if_pos hc14] at h
                              exact tokStep_mk hsl1 h (by simp)
                            · rw [if_neg hc14] at h
                              by_cases hc15 : (r == 60) = true
                              · rw [if_pos hc15] at h
                                obtain ⟨p0, hp0, h⟩ := bindOk h
                                obtain ⟨p1, hp1, h⟩ := bindOk h
                                obtain ⟨p2, hp2, h⟩ := bindOk h
                                split at h
                                · obtain ⟨st2, hpn, h⟩ := bindOk h
                                  exact tokStep_mk (hsl1.trans (popN_sl hpn)) h (by simp)
                                · exact tokStep_mk hsl1 h (by simp)
                              · rw [if_neg hc15] at h
                                by_cases hc16 : (r == 64) = true
                                · rw [if_pos hc16] at h
                                  obtain ⟨p0, hp0, h⟩ := bindOk h
                                  obtain ⟨p1, hp1, h⟩ := bindOk h
                                  obtain ⟨p2, hp2, h⟩ := bindOk h
                                  split at h
                                  · obtain ⟨⟨st2, b2⟩, hname, h⟩ := bindOk h
                                    try dsimp only at h
                                    obtain ⟨⟨t0, st3⟩, hmk, h⟩ := bindOk h
                                    try dsimp only at h
                                    have hp := pureOk h
                                    simp only [Prod.mk.injEq] at hp
                                    obtain ⟨ht, hst⟩ := hp
                                    subst hst
                                    exact (TokStep.congrTok (ht ▸ withString_raw t0 _) (ht ▸ withString_typ t0 _)
                                      (tokStep_mk (hsl1.trans (consumeName_sl hname)) hmk (by simp))).mono (SL.refl st)
                                  · exact tokStep_mk hsl1 h (by simp)
                                · rw [if_neg hc16] at h
                                  by_cases hc17 : (r == 91) = true
                                  · rw [if_pos hc17] at h
                                    exact tokStep_mk hsl1 h (by simp)
                                  · rw [if_neg hc17] at h
                                    by_cases hc18 : (r == 92) = true
                                    · rw [if_pos hc18] at h
                                      obtain ⟨p0, hp0, h⟩ := bindOk h
                                      split at h
                                      · simp [throw, throwThe, MonadExceptOf.throw] at h
                                      · exact (identLikeToken_step h).mono (hsl1.trans (push_sl st1 r))
                                    · rw [if_neg hc18] at h
                                      by_cases hc19 : (r == 93) = true
                                      · rw [if_pos hc19] at h
                                        exact tokStep_mk hsl1 h (by simp)
                                      · rw [if_neg hc19] at h
                                        by_cases hc20 : (r == 123) = true
                                        · rw [if_pos hc20] at h
                                          exact tokStep_mk hsl1 h (by simp)
                                        · rw [if_neg hc20] at h
                                          by_cases hc21 : (r == 125) = true
                                          · rw [if_pos hc21] at h
                                            exact tokStep_mk hsl1 h (by simp)
                                          · rw [if_neg hc21] at h
                                            exact tokStep_mk hsl1 h (by simp)

/-- Adjacent `extract` slices of the same string concatenate. -/
theorem extract_join {s : GoStr} {a b : Int} (h0 : 0 ≤ a) (hab : a ≤ b)
    (hb : b ≤ (s.length : Int)) :
    extract s a b ++ extract s b (s.length : Int) = extract s a (s.length : Int) := by
  unfold extract
  have e0 : (b - a).toNat = b.toNat - a.toNat := by omega
  have e1 : ((s.length : Int) - b).toNat = s.length - b.toNat := by omega
  have e2 : ((s.length : Int) - a).toNat = s.length - a.toNat := by omega
  rw [e0, e1, e2]
  have e3 : (s.drop a.toNat).drop (b.toNat - a.toNat) = s.drop b.toNat := by
    rw [List.drop_drop]
    congr 1
    omega
  rw [← e3]
  have hla : (s.drop a.toNat).length = s.length - a.toNat := by simp
  have hlb : ((s.drop a.toNat).drop (b.toNat - a.toNat)).length = s.length - b.toNat := by
    simp
    omega
  rw [List.take_of_length_le hlb.le, List.take_of_length_le hla.le]
  exact List.take_append_drop _ _

/-- The slice of the whole string is the string. -/
theorem extract_full (s : GoStr) : extract s 0 (s.length : Int) = s := by
  unfold extract
  simp

/-- Every successful full tokenization concatenates to the suffix of the input
from the `last` cursor on, provided the input contains no NUL byte. -/
theorem tokenizeAll_raw : ∀ {fuel lf : Nat} {st : LexState} {ts : List Token},
    0 ∉ st.s → tokenizeAll lf st fuel = .ok ts →
    concatRaw ts = extract st.s st.last (st.s.length : Int)
  | 0, _, _, _, _, h => by
    simp [tokenizeAll, throw, throwThe, MonadExceptOf.throw] at h
  | fuel + 1, lf, st, ts, h0, h => by
    rw [tokenizeAll] at h
    obtain ⟨⟨t, st1⟩, hnext, h⟩ := bindOk h
    try dsimp only at h
    obtain ⟨hs, hlp, h0l, hll, hlen, hraw, heof⟩ := lexNext_step h0 hnext
    split at h
    · rename_i he
      have hp := pureOk h
      subst hp
      have heq : st1.last = (st.s.length : Int) := heof (by simpa using he)
      simp [concatRaw, hraw, heq]
    · obtain ⟨ts2, hrec, h⟩ := bindOk h
      have hp := pureOk h
      subst hp
      have h0b : 0 ∉ st1.s := hs ▸ h0
      have ih := tokenizeAll_raw h0b hrec
      rw [hs] at ih
      simp only [concatRaw, List.flatMap_cons] at *
      rw [hraw, ih]
      exact extract_join h0l hll hlen

/-! ### Claims about `Select` and the combinators -/

theorem select_foldl_eq (l : Loc) :
    ∀ (ss : List CompiledSelector) (acc : List Loc),
      ss.foldl (fun selected s => selected ++ s.find l) acc
        = acc ++ ss.flatMap (fun s => s.find l)
  | [], acc => by simp
  | s :: rest, acc => by
    simp only [List.foldl_cons, List.flatMap_cons]
    rw [select_foldl_eq l rest (acc ++ s.find l)]
    simp

theorem countP_flatMap_sum (p : Loc → Bool) (f : CompiledSelector → List Loc) :
    ∀ ss : List CompiledSelector,
      (ss.flatMap f).countP p = (ss.map (fun s => (f s).countP p)).sum
  | [] => by simp
  | s :: rest => by
    simp only [List.flatMap_cons, List.countP_append, List.map_cons, List.sum_cons,
      countP_flatMap_sum p f rest]

/-- C2: `Selector.Select` returns exactly the concatenation of the
per-complex-selector result lists, in selector-list order; consequently (the
`countP` conjunct) a node matched by several members of the list appears once
per matching member, with no deduplication or re-sorting. -/
theorem c2_select_concatenation (sel : Selector) (l : Loc) (p : Loc → Bool) :
    sel.select l = sel.s.flatMap (fun s => s.find l) ∧
    (sel.select l).countP p = (sel.s.map (fun s => (s.find l).countP p)).sum := by
  have h := select_foldl_eq l sel.s []
  refine ⟨by simpa [Selector.select] using h, ?_⟩
  rw [Selector.select, h, List.nil_append]
  exact countP_flatMap_sum p (fun s => s.find l) sel.s

theorem mem_filter_childLocs_findAllKids (fn : Loc → Bool) :
    ∀ (cs pr : List Node) (x : Loc),
      x ∈ (childLocsAux pr cs).filter
          (fun c => c.node.ntype == NodeType.elementNode && fn c) →
      x ∈ findAllKids fn pr cs
  | [], _, x => by simp [childLocsAux]
  | c :: rest, pr, x => by
    intro hx
    rw [childLocsAux, List.filter_cons] at hx
    rw [findAllKids]
    split at hx
    · rename_i hcond
      rcases List.mem_cons.mp hx with hx | hx
      · subst hx
        simp only [Bool.and_eq_true] at hcond
        have h1 : (c.ntype == NodeType.elementNode) = true := hcond.1
        have h2 : fn ⟨pr, c, rest, true⟩ = true := hcond.2
        rw [List.mem_append]
        left
        rw [if_pos h1, findAll, if_pos h2]
        simp
      · exact List.mem_append_right _ (mem_filter_childLocs_findAllKids fn rest (c :: pr) x hx)
    · exact List.mem_append_right _ (mem_filter_childLocs_findAllKids fn rest (c :: pr) x hx)

/-- C7: every result of a child-combinator step is a result of the
corresponding descendant-combinator step: for the same head matcher `A` and
right-hand matcher `B`, the compiled selector `A > B` only returns nodes that
`A B` also returns. -/
theorem c7_descendant_superset_child (A B : Option CompoundSelectorMatcher) (root x : Loc)
    (h : x ∈ CompiledSelector.find ⟨A, [Combinator.child B]⟩ root) :
    x ∈ CompiledSelector.find ⟨A, [Combinator.descendant B]⟩ root := by
  simp only [CompiledSelector.find, List.foldl_cons, List.foldl_nil] at h ⊢
  rw [List.mem_flatten] at h ⊢
  obtain ⟨L, hL, hx⟩ := h
  rw [List.mem_map] at hL
  obtain ⟨y, hy, rfl⟩ := hL
  refine ⟨(Combinator.descendant B).find y, List.mem_map_of_mem _ hy, ?_⟩
  simp only [Combinator.find] at hx ⊢
  rw [Loc.childLocs] at hx
  exact mem_filter_childLocs_findAllKids (matchOpt B) y.node.children [] x hx

/-- A concrete instance of C7: in a one-child document the child of the root
is found by the descendant combinator, as the theorem's application to its
membership in the child-combinator result shows. -/
theorem c7_descendant_superset_child_witness :
    (⟨[], ⟨.elementNode, 2, [], [], []⟩, [], true⟩ : Loc)
      ∈ CompiledSelector.find
          ⟨some ⟨none, []⟩, [Combinator.descendant (some ⟨none, []⟩)]⟩
          ⟨[], ⟨.elementNode, 1, [], [], [⟨.elementNode, 2, [], [], []⟩]⟩, [], false⟩ :=
  c7_descendant_superset_child (some ⟨none, []⟩) (some ⟨none, []⟩) _ _
    (by simp +decide [CompiledSelector.find, findAll, findAllKids, matchOpt,
      CompoundSelectorMatcher.csMatch, Loc.childLocs, childLocsAux, Combinator.find,
      Node.children, Node.ntype])

theorem find_filter_singleton (m : Option CompoundSelectorMatcher) (p : Loc → Bool) :
    ∀ L : List Loc,
      (match L.find? p with
       | some pl => if matchOpt m pl then [pl] else []
       | none => []) = ((L.filter p).take 1).filter (matchOpt m)
  | [] => rfl
  | a :: rest => by
    by_cases h : p a = true
    · rw [List.find?_cons_of_pos _ h, List.filter_cons, if_pos h]
      simp [List.filter_cons]
    · rw [List.find?_cons_of_neg _ h, List.filter_cons, if_neg h]
      exact find_filter_singleton m p rest

/-- C3: the adjacent-sibling combinator tests exactly two candidates — the
nearest preceding element sibling and the nearest following element sibling
(both directions) — and the general-sibling combinator returns exactly the
locations that are a preceding or following sibling, are element nodes, and
match; text/comment siblings are skipped in both cases by the element-type
filter. -/
theorem c3_sibling_combinator_directions (m : Option CompoundSelectorMatcher) (l x : Loc) :
    ((Combinator.adjacent m).find l
      = (((l.prevLocs.filter (fun s => s.node.ntype == NodeType.elementNode)).take 1)
          ++ ((l.nextLocs.filter (fun s => s.node.ntype == NodeType.elementNode)).take 1)).filter
          (matchOpt m)) ∧
    (x ∈ (Combinator.sibling m).find l ↔
      (x ∈ l.prevLocs ∨ x ∈ l.nextLocs)
        ∧ x.node.ntype = NodeType.elementNode ∧ matchOpt m x = true) := by
  constructor
  · simp only [Combinator.find, List.filter_append]
    rw [← find_filter_singleton m _ l.prevLocs, ← find_filter_singleton m _ l.nextLocs]
  · simp only [Combinator.find, List.mem_append, List.mem_filter, Bool.and_eq_true,
      beq_iff_eq]
    tauto

/-- C8: the namespace policy of compiled type selectors.  For a tag name `a`
that `atom.Lookup` knows and that is not `*`, compiling `*|a` yields a matcher
accepting the element whatever its namespace, compiling `|a` (empty prefix)
yields one accepting it exactly when its namespace is empty, and compiling
`ns|a` yields one accepting it exactly when its namespace equals `ns`. -/
theorem c8_namespace_policy (lookup : GoStr → Nat) (c : CompilerSt) (pos : Int)
    (a nsStr : GoStr) (n : Node)
    (hl : lookup a ≠ 0) (hstar : a ≠ enc "*") (hatom : n.dataAtom = lookup a)
    (hns1 : nsStr ≠ []) (hns2 : nsStr ≠ enc "*") :
    ((cTypeSel lookup c ⟨pos, true, enc "*", a⟩).1.elim false
        (fun tm => tm.tsMatch n) = true) ∧
    (((cTypeSel lookup c ⟨pos, true, [], a⟩).1.elim false
        (fun tm => tm.tsMatch n) = true) ↔ n.ns = []) ∧
    (((cTypeSel lookup c ⟨pos, true, nsStr, a⟩).1.elim false
        (fun tm => tm.tsMatch n) = true) ↔ n.ns = nsStr) := by
  have hv : (a == enc "*") = false := beq_eq_false_iff_ne.mpr hstar
  have hz : (lookup a == 0) = false := beq_eq_false_iff_ne.mpr hl
  have hat : (lookup a == n.dataAtom) = true := beq_iff_eq.mpr hatom.symm
  have hb1 : (nsStr == []) = false := beq_eq_false_iff_ne.mpr hns1
  have hb2 : (nsStr == enc "*") = false := beq_eq_false_iff_ne.mpr hns2
  have hstar1 : ((enc "*" : GoStr) == []) = false := by decide
  have hstar2 : ((enc "*" : GoStr) == enc "*") = true := by decide
  refine ⟨?_, ?_, ?_⟩
  · simp [cTypeSel, hv, hz, newNamespaceMatcher, TypeSelectorMatcher.tsMatch,
      NamespaceMatcher.nsMatch, hat, hatom, hstar1, hstar2]
  · simp [cTypeSel, hv, hz, newNamespaceMatcher, TypeSelectorMatcher.tsMatch,
      NamespaceMatcher.nsMatch, hat, hatom]
  · simp [cTypeSel, hv, hz, newNamespaceMatcher, TypeSelectorMatcher.tsMatch,
      NamespaceMatcher.nsMatch, hat, hatom, hb1, hb2]
    constructor
    · rintro (h | h)
      · exact absurd h hns1
      · exact h.symm
    · intro h
      exact Or.inr h.symm

/-- Concrete instance of C8: an `svg`-namespaced element named `a` under a
lookup that knows `a`, checked for the three prefix forms by applying the
theorem. -/
theorem c8_namespace_policy_witness :
    ((cTypeSel (fun s => if s = enc "a" then 7 else 0) ⟨1, []⟩
        ⟨0, true, enc "*", enc "a"⟩).1.elim false
        (fun tm => tm.tsMatch ⟨.elementNode, 7, enc "svg", [], []⟩) = true) ∧
    (((cTypeSel (fun s => if s = enc "a" then 7 else 0) ⟨1, []⟩
        ⟨0, true, [], enc "a"⟩).1.elim false
        (fun tm => tm.tsMatch ⟨.elementNode, 7, enc "svg", [], []⟩) = true) ↔
      Node.ns ⟨.elementNode, 7, enc "svg", [], []⟩ = []) ∧
    (((cTypeSel (fun s => if s = enc "a" then 7 else 0) ⟨1, []⟩
        ⟨0, true, enc "svg", enc "a"⟩).1.elim false
        (fun tm => tm.tsMatch ⟨.elementNode, 7, enc "svg", [], []⟩) = true) ↔
      Node.ns ⟨.elementNode, 7, enc "svg", [], []⟩ = enc "svg") :=
  c8_namespace_policy (fun s => if s = enc "a" then 7 else 0) ⟨1, []⟩ 0
    (enc "a") (enc "svg") ⟨.elementNode, 7, enc "svg", [], []⟩
    (by decide) (by decide) (by decide) (by decide) (by decide)

/-- C9: a compiled class selector `.c` (a subclass matcher whose only set
field is `classSelector = c`) matches a node exactly when some attribute has
key `class` and value whose whitespace-separated fields contain `c` as one
exact field; the attribute's namespace is not consulted. -/
theorem c9_class_selector (c : GoStr) (l : Loc) (hc : c ≠ []) :
    SubclassSelectorMatcher.scMatch ⟨[], c, none, none⟩ l = true ↔
      ∃ attr ∈ l.node.attrs, attr.key = enc "class" ∧ c ∈ goFields attr.val := by
  have hb : (c != []) = true := bne_iff_ne.mpr hc
  rw [SubclassSelectorMatcher.scMatch]
  simp only [bne_self_eq_false]
  rw [if_neg (by simp)]
  rw [if_pos hb]
  simp only [List.any_eq_true, Bool.and_eq_true, beq_iff_eq]
  constructor
  · rintro ⟨attr, hmem, hkey, v, hv, hveq⟩
    exact ⟨attr, hmem, hkey, hveq ▸ hv⟩
  · rintro ⟨attr, hmem, hkey, hfield⟩
    exact ⟨attr, hmem, hkey, c, hfield, rfl⟩

/-- Concrete instance of C9: `.foo` against `class="foo bar"`, by applying
the theorem (the fields of `"foo bar"` are `"foo"` and `"bar"`). -/
theorem c9_class_selector_witness :
    SubclassSelectorMatcher.scMatch ⟨[], enc "foo", none, none⟩
      ⟨[], ⟨.elementNode, 1, [], [⟨[], enc "class", enc "foo bar"⟩], []⟩, [], false⟩ = true ↔
    ∃ attr ∈ Node.attrs ⟨.elementNode, 1, [], [⟨[], enc "class", enc "foo bar"⟩], []⟩,
      attr.key = enc "class" ∧ enc "foo" ∈ goFields attr.val :=
  c9_class_selector (enc "foo") _ (by decide)

/-- C4 fails as stated: on the input `"a\x00b"` tokenization succeeds (the
lexer treats the rune 0 — a literal NUL byte as much as end of input — as its
EOF sentinel), yet the concatenated raw text of the emitted tokens is
`"a\x00"`, not the input: the trailing `"b"` is lost. -/
theorem c4_roundtrip_counterexample :
    tokenizeAll 50 (newLexer [97, 0, 98]) 50
      = .ok [⟨.ident, [97], [97], 0, .none, []⟩, ⟨.eof, [0], [0], 1, .none, []⟩] ∧
    concatRaw [⟨.ident, [97], [97], 0, .none, []⟩, ⟨.eof, [0], [0], 1, .none, []⟩]
      ≠ [97, 0, 98] :=
  ⟨rfl, by decide⟩

/-- C4 (amended): for every input containing no NUL byte, a successful
tokenization emits tokens whose raw texts concatenate (in emission order,
whitespace included) exactly to the input: the tokens partition the input
with no gaps and no overlaps. -/
theorem c4_roundtrip_amended {lf fuel : Nat} {s : GoStr} {ts : List Token}
    (h0 : 0 ∉ s) (h : tokenizeAll lf (newLexer s) fuel = .ok ts) :
    concatRaw ts = s := by
  have hr := tokenizeAll_raw h0 h
  simpa [newLexer, extract_full] using hr

/-- Concrete instance of C4 (amended) at the input `"a b"`, by applying the
theorem to its computed token stream. -/
theorem c4_roundtrip_amended_witness :
    concatRaw [⟨.ident, [97], [97], 0, .none, []⟩, ⟨.whitespace, [32], [32], 1, .none, []⟩,
        ⟨.ident, [98], [98], 2, .none, []⟩, ⟨.eof, [], [], 3, .none, []⟩]
      = [97, 32, 98] :=
  @c4_roundtrip_amended 50 50 [97, 32, 98] _ (by decide) rfl

/-! ### Claim C1: the An+B formula -/

theorem wrap64_eq_self {x : Int} (hlo : -(2 ^ 63) ≤ x) (hhi : x < 2 ^ 63) : wrap64 x = x := by
  have h1 : Int.emod (x + 2 ^ 63) (2 ^ 64) = x + 2 ^ 63 :=
    Int.emod_eq_of_lt (by omega) (by omega)
  unfold wrap64
  omega

theorem tmod_zero_iff_dvd {a : Int} (d : Int) : Int.tmod d a = 0 ↔ a ∣ d := by
  constructor
  · intro h
    refine ⟨Int.tdiv d a, ?_⟩
    have h2 := Int.tmod_add_tdiv d a
    rw [h, zero_add] at h2
    exact h2.symm
  · rintro ⟨k, rfl⟩
    exact Int.mul_tmod_right a k

/-- C1 fails as stated: int64 arithmetic overflows.  An element with no
preceding siblings sits at 1-based element-sibling position `p = 1`, and for
`a = 1`, `b = -2^63` the formula holds (`1 = 1·n + b` with
`n = 1 + 2^63 ≥ 0`), but the compiled `:nth-child` matcher computes
`val - b` with wrapping 64-bit subtraction, lands on a negative quotient and
reports no match for that element. -/
theorem c1_nth_counterexample :
    nthChildMatcher ⟨1, -(2 ^ 63)⟩ ⟨[], ⟨.elementNode, 1, [], [], []⟩, [], true⟩ = false ∧
    (1 : Int) = 1 + (([] : List Node).countP (fun s => s.ntype == NodeType.elementNode) : Int) ∧
    ∃ n : Int, 0 ≤ n ∧ (1 : Int) = 1 * n + -(2 ^ 63) :=
  ⟨by decide, by decide, ⟨1 + 2 ^ 63, by decide, by decide⟩⟩

/-- The arithmetic half of C1: whenever `val - b` stays strictly within the
int64 range, `nth.matches` agrees with the specification formula — for
`a = 0` it accepts exactly `b`, otherwise exactly the values `a·n + b` for
non-negative integers `n`. -/
theorem nthMatches_formula (nth : Nth) (p : Int)
    (hlo : -(2 ^ 63) < p - nth.b) (hhi : p - nth.b < 2 ^ 63) :
    nthMatches nth p = true ↔
      (if nth.a = 0 then p = nth.b else ∃ n : Int, 0 ≤ n ∧ p = nth.a * n + nth.b) := by
  by_cases ha : nth.a = 0
  · simp [nthMatches, ha]
  · have hbe : (nth.a == 0) = false := beq_eq_false_iff_ne.mpr ha
    rw [nthMatches, if_neg (by simp [hbe]), if_neg ha]
    have hsub : goSub64 p nth.b = p - nth.b := by
      unfold goSub64
      exact wrap64_eq_self (by omega) hhi
    rw [hsub]
    simp only [goMod64, goDiv64, Bool.and_eq_true, beq_iff_eq, decide_eq_true_eq]
    constructor
    · rintro ⟨hm, hd⟩
      obtain ⟨k, hk⟩ := (tmod_zero_iff_dvd (p - nth.b)).mp hm
      have htd : Int.tdiv (p - nth.b) nth.a = k := by
        rw [hk]
        exact Int.mul_tdiv_cancel_left k ha
      have h1 : (p - nth.b).natAbs = nth.a.natAbs * k.natAbs := by
        rw [hk]
        exact Int.natAbs_mul _ _
      have ha1 : 1 ≤ nth.a.natAbs := by omega
      have h2 : k.natAbs ≤ (p - nth.b).natAbs := by
        calc k.natAbs = 1 * k.natAbs := (one_mul _).symm
        _ ≤ nth.a.natAbs * k.natAbs := Nat.mul_le_mul_right _ ha1
        _ = (p - nth.b).natAbs := h1.symm
      rw [htd, wrap64_eq_self (by omega) (by omega)] at hd
      refine ⟨k, hd, by linarith⟩
    · rintro ⟨n, hn0, hpn⟩
      have hk : p - nth.b = nth.a * n := by linarith
      have htd : Int.tdiv (p - nth.b) nth.a = n := by
        rw [hk]
        exact Int.mul_tdiv_cancel_left n ha
      have h1 : (p - nth.b).natAbs = nth.a.natAbs * n.natAbs := by
        rw [hk]
        exact Int.natAbs_mul _ _
      have ha1 : 1 ≤ nth.a.natAbs := by omega
      have h2 : n.natAbs ≤ (p - nth.b).natAbs := by
        calc n.natAbs = 1 * n.natAbs := (one_mul _).symm
        _ ≤ nth.a.natAbs * n.natAbs := Nat.mul_le_mul_right _ ha1
        _ = (p - nth.b).natAbs := h1.symm
      refine ⟨by rw [hk]; exact Int.mul_tmod_right nth.a n, ?_⟩
      rw [htd, wrap64_eq_self (by omega) (by omega)]
      exact hn0

theorem foldl_pos_count :
    ∀ (list : List Node) (i : Int), 0 ≤ i → i + (list.length : Int) < 2 ^ 63 →
      list.foldl (fun i s => if s.ntype == NodeType.elementNode then goAdd64 i 1 else i) i
        = i + (list.countP (fun s => s.ntype == NodeType.elementNode) : Int)
  | [], i, _, _ => by simp
  | s :: rest, i, h0, hlt => by
    rw [List.foldl_cons, List.countP_cons]
    simp only [List.length_cons] at hlt
    by_cases hs : (s.ntype == NodeType.elementNode) = true
    · rw [if_pos hs]
      have hg : goAdd64 i 1 = i + 1 := by
        unfold goAdd64
        exact wrap64_eq_self (by omega) (by omega)
      rw [hg, foldl_pos_count rest (i + 1) (by omega) (by omega)]
      simp only [hs, if_pos]
      push_cast
      ring
    · rw [if_neg hs]
      rw [foldl_pos_count rest i h0 (by omega)]
      simp only [hs]
      push_cast
      ring

/-- The sibling-counting loop of Go `compiler.nthChild`: in the absence of
int64 overflow (more preceding siblings than fit in an int64 cannot occur in
a real document) the computed value is the 1-based position of the node among
its element siblings, counting from the start and including itself — one
more than the number of preceding element siblings, text and comment siblings
ignored. -/
theorem nthChildPos_count (l : Loc) (hlen : (l.prev.length : Int) + 1 < 2 ^ 63) :
    nthChildPos l = 1 + (l.prev.countP (fun s => s.ntype == NodeType.elementNode) : Int) := by
  rw [nthChildPos, foldl_pos_count l.prev 1 (by omega) (by omega)]

/-- C1 (amended): for every An+B pair and every element whose 1-based
position `p` among its element siblings (counting from the start, including
self, ignoring text and comment siblings) satisfies the no-overflow bounds
`-2^63 < p - b < 2^63` (true of every real document), the compiled
`:nth-child(an+b)` matcher accepts the element iff `a = 0` and `p = b`, or
`a ≠ 0` and `p = a·n + b` for some non-negative integer `n`.  At the int64
boundary the formula fails (see the counterexample). -/
theorem c1_nth_formula_amended (nth : Nth) (l : Loc) (p : Int)
    (hp : p = 1 + (l.prev.countP (fun s => s.ntype == NodeType.elementNode) : Int))
    (hlen : (l.prev.length : Int) + 1 < 2 ^ 63)
    (hlo : -(2 ^ 63) < p - nth.b) (hhi : p - nth.b < 2 ^ 63) :
    nthChildMatcher nth l = true ↔
      (if nth.a = 0 then p = nth.b else ∃ n : Int, 0 ≤ n ∧ p = nth.a * n + nth.b) := by
  have hpos : nthChildPos l = p := by
    rw [nthChildPos_count l hlen, hp]
  rw [nthChildMatcher, hpos]
  exact nthMatches_formula nth p hlo hhi

/-- Concrete instance of C1 (amended): `:nth-child(2n+1)` on an element with
four preceding element siblings and one preceding comment sibling — element
position 5 — by applying the theorem. -/
theorem c1_nth_formula_witness :
    nthChildMatcher ⟨2, 1⟩
        ⟨[⟨.elementNode, 1, [], [], []⟩, ⟨.elementNode, 1, [], [], []⟩,
          ⟨.commentNode, 0, [], [], []⟩, ⟨.elementNode, 1, [], [], []⟩,
          ⟨.elementNode, 1, [], [], []⟩], ⟨.elementNode, 1, [], [], []⟩, [], true⟩ = true ↔
      (if (2 : Int) = 0 then (5 : Int) = 1
       else ∃ n : Int, 0 ≤ n ∧ (5 : Int) = 2 * n + 1) :=
  c1_nth_formula_amended ⟨2, 1⟩ _ 5 (by decide) (by decide) (by decide) (by decide)

/-! ### Claim C5: backslash–newline inside a string -/

/-- C5 fails as stated: tokenizing `"a\<newline>b"` (a double-quoted string
with a backslash immediately followed by a literal newline) is a tokenization
error, not a line continuation — the lexer reports "unexpected newline after
backslash" at byte offset 3 (and the package's own lexer tests expect this
error). -/
theorem c5_line_continuation_counterexample :
    tokenizeAll 50 (newLexer [34, 97, 92, 10, 98, 34]) 50
      = .error (.lexErr (enc "unexpected newline after \x27\\\x27 parsing string") 0 3) :=
  rfl

/-- C5 (amended, general form): whenever the string sub-lexer is about to
read a backslash immediately followed by a literal newline, it stops with the
"unexpected newline after backslash" error positioned just past the
backslash, for any quote character other than backslash itself, any
accumulated decoded value and any remaining fuel. -/
theorem c5_backslash_newline_errs (quote : Rune) (st : LexState) (b : GoStr)
    (fuel : Nat) (rest : GoStr) (hq : quote ≠ 92) (hpos : 0 ≤ st.pos)
    (hcur : st.suffix = 92 :: 10 :: rest) :
    lexString quote st b (fuel + 1)
      = .error (.lexErr (enc "unexpected newline after \x27\\\x27 parsing string")
          st.last (st.pos + 1)) := by
  have hlen : st.pos.toNat < st.s.length := by
    by_contra hle
    have hnil : st.suffix = [] := by
      unfold LexState.suffix
      exact List.drop_eq_nil_of_le (by omega)
    rw [hcur] at hnil
    cases hnil
  have hdrop1 : st.s.drop ((st.pos + 1).toNat) = 10 :: rest := by
    have h1 : (st.pos + 1).toNat = st.pos.toNat + 1 := by omega
    rw [h1, ← List.drop_drop]
    have h2 : st.s.drop st.pos.toNat = 92 :: 10 :: rest := hcur
    rw [h2]
    rfl
  have hpop : st.pop = .ok (92, { st with pos := st.pos + 1 }) := by
    unfold LexState.pop
    rw [if_neg (by omega), if_neg (by omega)]
    rw [hcur]
    simp [decodeRune, pure, Except.pure]
  have hpeek : ({ st with pos := st.pos + 1 } : LexState).peek = .ok 10 := by
    have hlen2 : (st.pos + 1).toNat < st.s.length := by
      have hl := congrArg List.length hdrop1
      simp at hl
      omega
    unfold LexState.peek
    rw [if_neg (by dsimp only; omega), if_neg (by dsimp only; omega)]
    unfold LexState.suffix
    dsimp only
    rw [hdrop1]
    simp [decodeRune, pure, Except.pure]
  rw [lexString, hpop]
  simp only [bind, Except.bind]
  try dsimp only
  have hqq : ((92 : Nat) == quote) = false := beq_eq_false_iff_ne.mpr (Ne.symm hq)
  rw [if_neg (by simp [hqq]), if_neg (by decide), if_neg (by decide), if_pos (by decide)]
  rw [hpeek]
  simp only [bind, Except.bind]
  rw [if_neg (by decide), if_pos (by decide)]
  simp [throw, throwThe, MonadExceptOf.throw, LexState.errf]

/-- Concrete instance of C5 (amended): the string sub-lexer positioned on
`\<newline>` inside `"\<newline>"`, by applying the theorem. -/
theorem c5_backslash_newline_errs_witness :
    lexString 34 ⟨[34, 92, 10, 34], 0, 1⟩ [] 11
      = .error (.lexErr (enc "unexpected newline after \x27\\\x27 parsing string") 0 2) :=
  c5_backslash_newline_errs 34 ⟨[34, 92, 10, 34], 0, 1⟩ [] 10 [34]
    (by decide) (by decide) rfl

/-! ### Claim C6: invalid UTF-8 input -/

/-- C6 fails as stated: the tokenizer performs no UTF-8 validation.  The
input `[0x61, 0xFF]` is not valid UTF-8, yet tokenization succeeds and emits
an ident token whose raw text is the two input bytes (the invalid byte is
decoded as U+FFFD and kept). -/
theorem c6_invalid_utf8_counterexample :
    validUtf8 [97, 255] = false ∧
    tokenizeAll 50 (newLexer [97, 255]) 50
      = .ok [⟨.ident, [97, 255], [97, 239, 191, 189], 0, .none, []⟩,
          ⟨.eof, [], [], 2, .none, []⟩] :=
  ⟨by simp [validUtf8, decodeRune, runeError, isCont, contVal], rfl⟩

/-- C6 (amended): not only is invalid UTF-8 not rejected up front — it is
not even handled safely: on the one-byte input `[0xFF]` the lexer decodes
U+FFFD, backs the cursor up by the three-byte length of U+FFFD after having
consumed one byte, and the next read panics with an out-of-range slice index
(modelled as the `oob` outcome), so no error token stream is ever produced
either. -/
theorem c6_invalid_utf8_crash :
    validUtf8 [255] = false ∧
    tokenizeAll 50 (newLexer [255]) 50 = .error .oob :=
  ⟨by simp [validUtf8, decodeRune, runeError, isCont, contVal], rfl⟩

def ErrExt (c c2 : CompilerSt) : Prop := ∃ t, c2.errs = c.errs ++ t

theorem errExt_refl (c : CompilerSt) : ErrExt c c := ⟨[], by simp⟩

theorem cErrorf_ext (c : CompilerSt) (pos : Int) (msg : GoStr) :
    ErrExt c (cErrorf c pos msg).1 := ⟨[⟨pos, msg⟩], rfl⟩

theorem compileNth_ext (c : CompilerSt) (s : PseudoClassSel) : ErrExt c (compileNth c s).2 := by
  unfold compileNth
  dsimp only
  repeat' split
  all_goals first
    | exact errExt_refl _
    | exact cErrorf_ext _ _ _

theorem nth_wrap_ext (c : CompilerSt) (s : PseudoClassSel) (g : Nth → Loc → Bool) :
    ErrExt c ((match compileNth c s with
      | (none, c) => ((none : Option (Loc → Bool)), c)
      | (some nth, c) => (some (g nth), c)).2) := by
  split
  next c1 heq =>
    have h := compileNth_ext c s
    rw [heq] at h
    exact h
  next nth c1 heq =>
    have h := compileNth_ext c s
    rw [heq] at h
    exact h

theorem cNthChild_ext (c : CompilerSt) (s : PseudoClassSel) : ErrExt c (cNthChild c s).2 :=
  nth_wrap_ext c s nthChildMatcher

theorem cNthLastChild_ext (c : CompilerSt) (s : PseudoClassSel) :
    ErrExt c (cNthLastChild c s).2 :=
  nth_wrap_ext c s nthLastChildMatcher

theorem cNthLastOfType_ext (c : CompilerSt) (s : PseudoClassSel) :
    ErrExt c (cNthLastOfType c s).2 :=
  nth_wrap_ext c s nthLastOfTypeMatcher

theorem cNthOfType_ext (c : CompilerSt) (s : PseudoClassSel) : ErrExt c (cNthOfType c s).2 :=
  nth_wrap_ext c s nthOfTypeMatcher

theorem errExt_ite {α : Type} {P : Prop} [inst : Decidable P] {c : CompilerSt}
    {a b : α × CompilerSt} (ha : ErrExt c a.2) (hb : ErrExt c b.2) :
    ErrExt c (ite P a b).2 := by
  by_cases h : P
  · rw [if_pos h]
    exact ha
  · rw [if_neg h]
    exact hb

theorem cPseudoClassSel_ext (c : CompilerSt) (s : PseudoClassSel) :
    ErrExt c (cPseudoClassSel c s).2 := by
  unfold cPseudoClassSel
  dsimp only
  exact errExt_ite (errExt_refl _)
    (errExt_ite (errExt_refl _)
    (errExt_ite (errExt_refl _)
    (errExt_ite (errExt_refl _)
    (errExt_ite (errExt_refl _)
    (errExt_ite (errExt_refl _)
    (errExt_ite (errExt_refl _)
    (errExt_ite (errExt_refl _)
    (errExt_ite (cErrorf_ext _ _ _)
    (errExt_ite (cNthChild_ext _ _)
    (errExt_ite (cNthLastChild_ext _ _)
    (errExt_ite (cNthLastOfType_ext _ _)
    (errExt_ite (cNthOfType_ext _ _)
    (cErrorf_ext _ _ _)))))))))))))

theorem cAttrSel_ext (c : CompilerSt) (s : AttrSel) : ErrExt c (cAttrSel c s).2 := by
  unfold cAttrSel
  dsimp only
  split
  · exact cErrorf_ext _ _ _
  · exact errExt_refl _

theorem cTypeSel_ext (lookup : GoStr → Nat) (c : CompilerSt) (s : TypeSel) :
    ErrExt c (cTypeSel lookup c s).2 := by
  unfold cTypeSel
  dsimp only
  exact errExt_ite (errExt_refl _)
    (errExt_ite (errExt_ite (cErrorf_ext _ _ _) (cErrorf_ext _ _ _)) (errExt_refl _))

theorem errExt_trans {a b c : CompilerSt} (h1 : ErrExt a b) (h2 : ErrExt b c) : ErrExt a c := by
  obtain ⟨t1, ht1⟩ := h1
  obtain ⟨t2, ht2⟩ := h2
  exact ⟨t1 ++ t2, by rw [ht2, ht1, List.append_assoc]⟩

theorem cSubclassSel_ext (c : CompilerSt) (s : SubclassSel) : ErrExt c (cSubclassSel c s).2 := by
  unfold cSubclassSel
  dsimp only
  cases hA : s.attributeSelector with
  | none =>
    cases hP : s.pseudoClassSelector with
    | none => exact errExt_refl _
    | some pcs => exact cPseudoClassSel_ext _ _
  | some a =>
    cases hP : s.pseudoClassSelector with
    | none => exact cAttrSel_ext _ _
    | some pcs => exact errExt_trans (cAttrSel_ext _ _) (cPseudoClassSel_ext _ _)

theorem subClasses_foldl_ext :
    ∀ (l : List SubclassSel) (acc : List SubclassSelectorMatcher) (c0 : CompilerSt),
      ErrExt c0 ((l.foldl
        (fun (acc, c) sc =>
          let (m, c) := cSubclassSel c sc
          (acc ++ [m], c))
        (acc, c0)).2)
  | [], acc, c0 => by
    rw [List.foldl_nil]
    exact errExt_refl _
  | sc :: rest, acc, c0 => by
    rw [List.foldl_cons]
    exact errExt_trans (cSubclassSel_ext c0 sc) (subClasses_foldl_ext rest _ _)

theorem cCompoundSel_ext (lookup : GoStr → Nat) (c : CompilerSt) (s : CompoundSel) :
    ErrExt c (cCompoundSel lookup c s).2 := by
  unfold cCompoundSel
  dsimp only
  have hts : ErrExt c ((match s.typeSelector with
      | some ts => cTypeSel lookup c ts
      | none => ((none : Option TypeSelectorMatcher), c)).2) := by
    cases s.typeSelector
    · exact errExt_refl _
    · exact cTypeSel_ext _ _ _
  have h12 := errExt_trans hts (subClasses_foldl_ext s.subClasses [] _)
  exact errExt_ite (errExt_ite (errExt_trans h12 (cErrorf_ext _ _ _))
    (errExt_trans h12 (cErrorf_ext _ _ _))) h12

theorem ne_ite {α : Type} {P : Prop} [inst : Decidable P] {a b : α × CompilerSt}
    (ha : a.2.errs ≠ []) (hb : b.2.errs ≠ []) : (ite P a b).2.errs ≠ [] := by
  by_cases h : P
  · rw [if_pos h]
    exact ha
  · rw [if_neg h]
    exact hb

theorem errExt_ne {c c2 : CompilerSt} (h : ErrExt c c2) (hne : c.errs ≠ []) : c2.errs ≠ [] := by
  obtain ⟨t, ht⟩ := h
  rw [ht]
  intro hx
  exact hne (List.append_eq_nil.mp hx).1

theorem cErrorf_ne (c : CompilerSt) (pos : Int) (msg : GoStr) :
    (cErrorf c pos msg).1.errs ≠ [] := by simp [cErrorf]

def combChain : GoStr → Option ComplexSel → List GoStr
  | _, none => []
  | comb, some (.mk _ _ c2 nx) => comb :: combChain c2 nx

theorem combChain_eq : ∀ s : ComplexSel, combChain s.combinator s.next = s.chainCombinators
  | .mk _ _ _ none => by
    rw [ComplexSel.chainCombinators.eq_def]
    dsimp only [ComplexSel.combinator, ComplexSel.next]
    simp only [combChain]
  | .mk p sel comb (some (.mk p2 s2 c2 n2)) => by
    have ih := combChain_eq (.mk p2 s2 c2 n2)
    dsimp only [ComplexSel.combinator, ComplexSel.next] at ih
    rw [ComplexSel.chainCombinators.eq_def]
    dsimp only [ComplexSel.combinator, ComplexSel.next]
    rw [← ih]
    simp only [combChain]

set_option maxHeartbeats 2000000 in
theorem cCombsNode_ext (lookup : GoStr → Nat) :
    ∀ (s : ComplexSel) (c : CompilerSt) (comb : GoStr),
      ErrExt c (cCombsNode lookup c comb s).2
  | .mk p sel comb2 next, c, comb => by
    rw [cCombsNode]
    dsimp only
    have h1 := cCompoundSel_ext lookup c sel
    have hrec : ∀ c0 : CompilerSt, ErrExt c0 ((match next with
        | none => (([] : List Combinator), c0)
        | some n => cCombsNode lookup c0 comb2 n)).2 := by
      intro c0
      cases next with
      | none => exact errExt_refl _
      | some n => exact cCombsNode_ext lookup n c0 comb2
    exact errExt_ite (errExt_trans h1 (hrec _))
      (errExt_ite (errExt_trans h1 (hrec _))
      (errExt_ite (errExt_trans h1 (hrec _))
      (errExt_ite (errExt_trans h1 (hrec _))
      (errExt_trans h1 (errExt_trans (cErrorf_ext _ _ _) (hrec _))))))

theorem cCombs_ext (lookup : GoStr → Nat) (o : Option ComplexSel) (c : CompilerSt)
    (comb : GoStr) : ErrExt c (cCombs lookup c comb o).2 := by
  cases o with
  | none =>
    simp only [cCombs]
    exact errExt_refl _
  | some nxt =>
    simp only [cCombs]
    exact cCombsNode_ext lookup nxt c comb

set_option maxHeartbeats 2000000 in
theorem cCombsNode_col (lookup : GoStr → Nat) :
    ∀ (s : ComplexSel) (c : CompilerSt) (comb : GoStr),
      enc "||" ∈ combChain comb (some s) → (cCombsNode lookup c comb s).2.errs ≠ []
  | .mk p sel comb2 next, c, comb => by
    intro hmem
    simp only [combChain] at hmem
    rw [cCombsNode]
    dsimp only
    rcases List.mem_cons.mp hmem with hcomb | htail
    · subst hcomb
      rw [if_neg (by decide), if_neg (by decide), if_neg (by decide), if_neg (by decide)]
      have hne := cErrorf_ne (cCompoundSel lookup c sel).2 p
        (enc "unexpected combinator: " ++ enc "||")
      cases next with
      | none => exact hne
      | some n => exact errExt_ne (cCombsNode_ext lookup n _ comb2) hne
    · cases next with
      | none => simp [combChain] at htail
      | some n =>
        have hrec : ∀ c0 : CompilerSt, (cCombsNode lookup c0 comb2 n).2.errs ≠ [] :=
          fun c0 => cCombsNode_col lookup n c0 comb2 htail
        exact ne_ite (hrec _) (ne_ite (hrec _) (ne_ite (hrec _) (ne_ite (hrec _) (hrec _))))

theorem cCombs_col (lookup : GoStr → Nat) (o : Option ComplexSel) (c : CompilerSt)
    (comb : GoStr) (h : enc "||" ∈ combChain comb o) :
    (cCombs lookup c comb o).2.errs ≠ [] := by
  cases o with
  | none => simp [combChain] at h
  | some nxt =>
    simp only [cCombs]
    exact cCombsNode_col lookup nxt c comb h

theorem cCompile_ext (lookup : GoStr → Nat) (c : CompilerSt) (s : ComplexSel) :
    ErrExt c (cCompile lookup c s).2 := by
  unfold cCompile
  dsimp only
  exact errExt_trans (cCompoundSel_ext lookup c s.sel) (cCombs_ext lookup s.next _ s.combinator)

theorem cCompile_col (lookup : GoStr → Nat) (c : CompilerSt) (s : ComplexSel)
    (h : enc "||" ∈ s.chainCombinators) : (cCompile lookup c s).2.errs ≠ [] := by
  rw [← combChain_eq] at h
  unfold cCompile
  dsimp only
  exact cCombs_col lookup s.next _ s.combinator h

theorem selList_foldl_ext (lookup : GoStr → Nat) :
    ∀ (list : List ComplexSel) (acc : List CompiledSelector) (c0 : CompilerSt),
      ErrExt c0 ((list.foldl
        (fun (acc, c) s =>
          let (m, c) := cCompile lookup c s
          (acc ++ [m], c))
        (acc, c0)).2)
  | [], acc, c0 => by
    rw [List.foldl_nil]
    exact errExt_refl _
  | s :: rest, acc, c0 => by
    rw [List.foldl_cons]
    exact errExt_trans (cCompile_ext lookup c0 s) (selList_foldl_ext lookup rest _ _)

theorem selList_foldl_col (lookup : GoStr → Nat) :
    ∀ (list : List ComplexSel) (acc : List CompiledSelector) (c0 : CompilerSt)
      (cs : ComplexSel), cs ∈ list → enc "||" ∈ cs.chainCombinators →
      ((list.foldl
        (fun (acc, c) s =>
          let (m, c) := cCompile lookup c s
          (acc ++ [m], c))
        (acc, c0)).2).errs ≠ []
  | [], _, _, cs, hmem, _ => absurd hmem (List.not_mem_nil _)
  | s :: rest, acc, c0, cs, hmem, hcol => by
    rw [List.foldl_cons]
    rcases List.mem_cons.mp hmem with rfl | hmem2
    · exact errExt_ne (selList_foldl_ext lookup rest _ _) (cCompile_col lookup c0 cs hcol)
    · exact selList_foldl_col lookup rest _ _ cs hmem2 hcol

/-- C10: a complex selector whose chain records the column combinator `||`
never compiles — `compileSelectorList` (the compile phase of `Parse`) returns
an error whenever any member of the parsed list carries `||` — while the
parser accepts such input: parsing `"a || b"` succeeds with an AST recording
the combinator `"||"` (the bytes `[124, 124]`) between the two compound
selectors, and compiling that very AST fails with the
`unexpected combinator: ||` error, so `Parse` never yields a compiled
selector containing a column combinator. -/
theorem c10_column_combinator (lookup : GoStr → Nat) (list : List ComplexSel)
    (cs : ComplexSel) (hmem : cs ∈ list) (hcol : enc "||" ∈ cs.chainCombinators) :
    (∃ e, compileSelectorList lookup list = .error e) ∧
    (pParse 50 50 (newParser (enc "a || b"))).map (fun x => x.1)
      = .ok [ComplexSel.mk 0 ⟨0, some ⟨0, false, [], [97]⟩, [], []⟩ [124, 124]
          (some (ComplexSel.mk 5 ⟨5, some ⟨5, false, [], [98]⟩, [], []⟩ [] none))] ∧
    compileSelectorList (fun _ => 1)
        [ComplexSel.mk 0 ⟨0, some ⟨0, false, [], [97]⟩, [], []⟩ [124, 124]
          (some (ComplexSel.mk 5 ⟨5, some ⟨5, false, [], [98]⟩, [], []⟩ [] none))]
      = .error ⟨5, enc "unexpected combinator: ||"⟩ := by
  refine ⟨?_, rfl, rfl⟩
  have hne := selList_foldl_col lookup list [] ⟨1, []⟩ cs hmem hcol
  unfold compileSelectorList
  dsimp only
  cases he : ((list.foldl
      (fun (acc, c) s =>
        let (m, c) := cCompile lookup c s
        (acc ++ [m], c))
      (([] : List CompiledSelector), (⟨1, []⟩ : CompilerSt))).2).firstErr with
  | none => exact absurd (List.head?_eq_none_iff.mp he) hne
  | some e =>
    refine ⟨e, ?_⟩
    simp [throw, throwThe, MonadExceptOf.throw]

/-- Concrete instance of C10: applying the theorem to the parsed AST of
`"a || b"` (which records `||`). -/
theorem c10_column_combinator_witness :
    (∃ e, compileSelectorList (fun _ => 1)
        [ComplexSel.mk 0 ⟨0, some ⟨0, false, [], [97]⟩, [], []⟩ [124, 124]
          (some (ComplexSel.mk 5 ⟨5, some ⟨5, false, [], [98]⟩, [], []⟩ [] none))]
      = .error e) ∧
    (pParse 50 50 (newParser (enc "a || b"))).map (fun x => x.1)
      = .ok [ComplexSel.mk 0 ⟨0, some ⟨0, false, [], [97]⟩, [], []⟩ [124, 124]
          (some (ComplexSel.mk 5 ⟨5, some ⟨5, false, [], [98]⟩, [], []⟩ [] none))] ∧
    compileSelectorList (fun _ => 1)
        [ComplexSel.mk 0 ⟨0, some ⟨0, false, [], [97]⟩, [], []⟩ [124, 124]
          (some (ComplexSel.mk 5 ⟨5, some ⟨5, false, [], [98]⟩, [], []⟩ [] none))]
      = .error ⟨5, enc "unexpected combinator: ||"⟩ :=
  c10_column_combinator (fun _ => 1) _
    (ComplexSel.mk 0 ⟨0, some ⟨0, false, [], [97]⟩, [], []⟩ [124, 124]
      (some (ComplexSel.mk 5 ⟨5, some ⟨5, false, [], [98]⟩, [], []⟩ [] none)))
    (List.mem_singleton_self _) (by decide)
